import Mathlib

/-!
Verification of the table-flattening and reconciliation engine of
iam_actions (src/iam_actions/action_map.py).

The embedding models the parsed HTML structures as plain data:
a table cell carries its text and declared rowspan (Python reads
the attribute with int(x.get("rowspan", "1"))); a table is the
sequence of its tr elements, each the list of its td cells.
Network fetching and BeautifulSoup parsing are injected as data.
Python exceptions (assert failures, StopIteration from an exhausted
cell iterator, ValueError from the AccessLevel constructor) are
modelled with Except.
-/

namespace IamActions

/-- A td cell of the actions table: its text and declared rowspan. -/
structure Cell where
  text : String
  rowspan : Nat := 1
deriving Repr, DecidableEq

/-- A tr element, i.e. the list of its td cells. -/
abbrev Row := List Cell

/-- A table element, i.e. the sequence of its tr elements. -/
abbrev Table := List Row

/-- The ways flatten_table can raise in Python. -/
inductive FlattenError where
  /-- The assert len(cells) == 6 on the first row of a block fails. -/
  | firstRowNotSix : FlattenError
  /-- A next(rows) call finds the row stream exhausted (StopIteration). -/
  | rowStreamExhausted : FlattenError
  /-- A continuation row has no cells, so cells[0] raises IndexError. -/
  | emptyContinuationRow : FlattenError
  /-- A next(cells) call finds the cell iterator exhausted (StopIteration). -/
  | cellsExhausted : FlattenError
  /-- The assert all(x == 1 for x in rowspans) at block end fails. -/
  | spanNotClosed : FlattenError
deriving Repr, DecidableEq

/-- Boolean infix test on character lists. -/
def listInfixOf (needle : List Char) : List Char → Bool
  | [] => needle.isEmpty
  | b :: bs => List.isPrefixOf needle (b :: bs) || listInfixOf needle bs

/-- Substring test: Python s1 in s2. -/
def strContains (hay needle : String) : Bool :=
  listInfixOf needle.toList hay.toList

/-- Python str.strip() with no arguments: remove leading and trailing
whitespace.  Implemented over the character list so that it evaluates
inside the kernel. -/
def pyStrip (s : String) : String :=
  (((s.toList.dropWhile Char.isWhitespace).reverse.dropWhile
      Char.isWhitespace).reverse).asString

/-- One replacement pass over at most the fuel-many leading characters:
Python str.replace of a nonempty pattern with a replacement, applied to
every occurrence, scanning left to right.  The fuel is the list length
at the top call; each step consumes at least one character, so the
fuel-exhausted branch is unreachable from pyReplace below. -/
def replaceAux (pat rep : List Char) : Nat → List Char → List Char
  | _, [] => []
  | 0, l => l
  | fuel + 1, ch :: rest =>
    if List.isPrefixOf pat (ch :: rest) then
      rep ++ replaceAux pat rep fuel ((ch :: rest).drop pat.length)
    else
      ch :: replaceAux pat rep fuel rest

/-- Python s.replace(pat, rep) for a nonempty pattern. -/
def pyReplace (s pat rep : String) : String :=
  if pat.toList.isEmpty then s
  else (replaceAux pat.toList rep.toList s.toList.length s.toList).asString

/-- Accumulator pass for whitespace splitting; acc holds the pending
token's characters reversed. -/
def splitWsAux : List Char → List Char → List String
  | [], acc => if acc.isEmpty then [] else [acc.reverse.asString]
  | ch :: rest, acc =>
    if ch.isWhitespace then
      if acc.isEmpty then splitWsAux rest []
      else acc.reverse.asString :: splitWsAux rest []
    else splitWsAux rest (ch :: acc)

/-- Python str.split() with no arguments: the whitespace-separated
tokens, with no empty tokens. -/
def splitWs (s : String) : List String := splitWsAux s.toList []

/-- Python str.lower(), on the ASCII range as the header strings use. -/
def pyLower (s : String) : String := (s.toList.map Char.toLower).asString

/-- Python " ".join(parts). -/
def joinSpaces : List String → String
  | [] => ""
  | [s] => s
  | s :: rest => s ++ " " ++ joinSpaces rest

/-- Python string comparison: lexicographic by code point. -/
def lexLe : List Char → List Char → Bool
  | [], _ => true
  | _ :: _, [] => false
  | a :: as, b :: bs =>
    if a.toNat < b.toNat then true
    else if b.toNat < a.toNat then false
    else lexLe as bs

/-- Code-point lexicographic order on strings. -/
def strLe (s t : String) : Bool := lexLe s.toList t.toList

/-- Python ignore_row test: "SCENARIO" in cells[0].text. -/
def isIgnoreRow (firstCell : Cell) : Bool :=
  strContains firstCell.text "SCENARIO"

/-- One pass of the inner column loop of flatten_table over the zipped
(rowspans, processed_row) state, consuming cells of one continuation
row.  A column whose counter is above 1 is decremented and consumes no
cell; otherwise, unless the row is ignored, the next cell is consumed
and its trimmed text appended with a space. -/
def stepColumns (ignore : Bool) :
    List (Nat × String) → List Cell → Except FlattenError (List (Nat × String))
  | [], _ => .ok []
  | (sp, acc) :: cols, cells =>
    if sp > 1 then
      (stepColumns ignore cols cells).map (fun r => (sp - 1, acc) :: r)
    else if ignore then
      (stepColumns ignore cols cells).map (fun r => (sp, acc) :: r)
    else
      match cells with
      | [] => .error .cellsExhausted
      | c :: rest =>
        (stepColumns ignore cols rest).map
          (fun r => (sp, acc ++ " " ++ pyStrip c.text) :: r)

/-- The loop for _ in range(1, max_rowspan): consume n further physical
rows from the row stream, updating the per-column state. -/
def consumeBlock :
    Nat → List (Nat × String) → List Row →
    Except FlattenError (List (Nat × String) × List Row)
  | 0, cols, rows => .ok (cols, rows)
  | n + 1, cols, rows =>
    match rows with
    | [] => .error .rowStreamExhausted
    | row :: rest =>
      match row with
      | [] => .error .emptyContinuationRow
      | c0 :: _ =>
        match stepColumns (isIgnoreRow c0) cols row with
        | .error e => .error e
        | .ok cols2 => consumeBlock n cols2 rest

theorem consumeBlock_ok_rows : ∀ (n : Nat) (cols : List (Nat × String))
    (rows : List Row) (cols2 : List (Nat × String)) (rows2 : List Row),
    consumeBlock n cols rows = .ok (cols2, rows2) →
    rows2 = rows.drop n := by
  intro n
  induction n with
  | zero =>
    intro cols rows cols2 rows2 h
    simp only [consumeBlock, Except.ok.injEq, Prod.mk.injEq] at h
    simp [← h.2]
  | succ n ih =>
    intro cols rows cols2 rows2 h
    match rows with
    | [] => simp [consumeBlock] at h
    | row :: rest =>
      match row with
      | [] => simp [consumeBlock] at h
      | c0 :: cs =>
        simp only [consumeBlock] at h
        cases hstep : stepColumns (isIgnoreRow c0) cols (c0 :: cs) with
        | error e => rw [hstep] at h; exact absurd h (by simp)
        | ok cols3 =>
          rw [hstep] at h
          simpa [List.drop] using ih cols3 rest cols2 rows2 h

theorem consumeBlock_ok_rows_le {n : Nat} {cols : List (Nat × String)}
    {rows : List Row} {cols2 : List (Nat × String)} {rows2 : List Row}
    (h : consumeBlock n cols rows = .ok (cols2, rows2)) :
    rows2.length ≤ rows.length := by
  have := consumeBlock_ok_rows n cols rows cols2 rows2 h
  subst this
  simp only [List.length_drop]
  omega

/-- The block loop of flatten_table, structured on a fuel argument so
that it evaluates inside the kernel.  The fuel is the table length at
the top call; consumeBlock only ever returns a suffix of its row list,
so every recursive call keeps fuel at least the remaining length and
the fuel-exhausted branch is unreachable from flatten_table below.
Each block starts at the next row of the stream, which must have
exactly 6 cells; the block height is the first cell's declared rowspan;
the remaining height - 1 physical rows are folded into the accumulated
column strings; at block end every counter must be 1. -/
def flattenAux : Nat → Table → Except FlattenError (List (List String))
  | _, [] => .ok []
  | 0, _ :: _ => .error .rowStreamExhausted
  | fuel + 1, row :: rest =>
    if row.length = 6 then
      match consumeBlock (((row.map (fun c => c.rowspan)).headD 1) - 1)
          ((row.map (fun c => c.rowspan)).zip (row.map (fun c => pyStrip c.text)))
          rest with
      | .error e => .error e
      | .ok (cols, rest2) =>
        if cols.all (fun p => p.1 == 1) then
          match flattenAux fuel rest2 with
          | .error e => .error e
          | .ok t2 => .ok ((cols.map Prod.snd) :: t2)
        else .error .spanNotClosed
    else .error .firstRowNotSix

/-- Shallow embedding of flatten_table (action_map.py lines 454-499). -/
def flatten_table (t : Table) : Except FlattenError (List (List String)) :=
  flattenAux t.length t

/-- Python x.replace of a single asterisk with the empty string:
remove every asterisk. -/
def stripStars (s : String) : String :=
  String.mk (s.toList.filter (fun c => c ≠ '*'))

/-- Insert into an ascending sorted list of strings. -/
def insertSorted (a : String) : List String → List String
  | [] => [a]
  | b :: rest => if strLe a b then a :: b :: rest else b :: insertSorted a rest

/-- Ascending sort of strings, the model of Python sorted. -/
def sortStrings (l : List String) : List String := l.foldr insertSorted []

/-- Keep the first occurrence of each string.  This is the deterministic
model of building a Python set from a list and iterating it: the set
holds each distinct element once, and its unspecified iteration order is
fixed here as first-occurrence order. -/
def dedupKeepFirst : List String → List String
  | [] => []
  | a :: rest => a :: (dedupKeepFirst rest).filter (fun b => b ≠ a)

/-- The closed AccessLevel enumeration (action_map.py lines 385-401). -/
inductive AccessLevel where
  | READ
  | WRITE
  | PUT
  | DELETE
  | GET
  | LIST
  | PERMISSIONS_MANAGE
  | TAGGING
  | REPLICATE
  | NONE
  | UNDOCUMENTED
deriving Repr, DecidableEq

/-- The string value of each AccessLevel member. -/
def AccessLevel.value : AccessLevel → String
  | .READ => "Read"
  | .WRITE => "Write"
  | .PUT => "Put"
  | .DELETE => "Delete"
  | .GET => "Get"
  | .LIST => "List"
  | .PERMISSIONS_MANAGE => "Permissions management"
  | .TAGGING => "Tagging"
  | .REPLICATE => "Replicate"
  | .NONE => "None"
  | .UNDOCUMENTED => "Undocumented"

/-- Value lookup, the model of the Python AccessLevel(s) constructor
call: some member on an exact value match, none where Python raises
ValueError. -/
def AccessLevel.ofValue (s : String) : Option AccessLevel :=
  if s = "Read" then some .READ
  else if s = "Write" then some .WRITE
  else if s = "Put" then some .PUT
  else if s = "Delete" then some .DELETE
  else if s = "Get" then some .GET
  else if s = "List" then some .LIST
  else if s = "Permissions management" then some .PERMISSIONS_MANAGE
  else if s = "Tagging" then some .TAGGING
  else if s = "Replicate" then some .REPLICATE
  else if s = "None" then some .NONE
  else if s = "Undocumented" then some .UNDOCUMENTED
  else none

/-- The ActionMap dataclass (lines 404-412) with its field defaults. -/
structure ActionMap where
  access_level : AccessLevel := .NONE
  action : String := ""
  condition_keys : List String := []
  description : String := ""
  orphan : Bool := false
  resources : List String := []
deriving Repr, DecidableEq

/-- The exceptions that can escape process_actions_table. -/
inductive ProcessError where
  /-- An assertion or iterator failure inside flatten_table. -/
  | shape : FlattenError → ProcessError
  /-- ValueError from AccessLevel(value): the unmatched cell value. -/
  | badAccessLevel : String → ProcessError
deriving Repr, DecidableEq

/-- Build one ActionMap from one flattened 6-string row, the model of
the ActionMap(...) constructor call in process_actions_table
(lines 504-511). -/
def buildRecord (row : List String) : Except ProcessError ActionMap :=
  match AccessLevel.ofValue (row.getD 2 "") with
  | none => .error (.badAccessLevel (row.getD 2 ""))
  | some lvl =>
    .ok { action := pyStrip (pyReplace (row.getD 0 "") "[permission only]" "")
          access_level := lvl
          resources :=
            sortStrings (dedupKeepFirst ((splitWs (row.getD 3 "")).map stripStars))
          condition_keys := sortStrings (dedupKeepFirst (splitWs (row.getD 4 "")))
          description := joinSpaces (splitWs (row.getD 1 "")) }

/-- Shallow embedding of process_actions_table (lines 502-513): flatten
the table, then build one record per flat row; the first failure
escapes. -/
def process_actions_table (t : Table) : Except ProcessError (List ActionMap) :=
  match flatten_table t with
  | .error e => .error (.shape e)
  | .ok rows => rows.mapM buildRecord

/-- First-documented-wins insertion into the merge map, the model of
the dict update guarded by the key-absence test (lines 538-540).
Python dicts preserve insertion order, hence the association list. -/
def insertRec (m : List (String × ActionMap)) (r : ActionMap) :
    List (String × ActionMap) :=
  if (m.lookup r.action).isSome then m else m ++ [(r.action, r)]

/-- Diagnostic emitted when a page has no qualifying actions table. -/
def missingTableMsg (u : String) : String :=
  "Page missing actions table: " ++ u

/-- Diagnostic emitted when a service has no URL map entry. -/
def missingUrlMsg (name : String) : String :=
  "Service missing URL map: " ++ name

/-- Diagnostic emitted per authoritative-but-undocumented identifier. -/
def undocMsg (name a : String) : String :=
  "Undocumented action found: " ++ name ++ ":" ++ a

/-- The synthesized record for an undocumented action (lines 546-550).
Only action, access_level and description are passed; every other field
keeps its dataclass default, orphan included. -/
def undocRecord (a : String) : ActionMap :=
  { action := a
    access_level := .UNDOCUMENTED
    description := "Not Documented by AWS" }

/-- One iteration of the page loop of generate_action_map
(lines 532-540).  The fetch argument models urlopen plus
find_actions_table for the page URL built from the url name: none where
Python gets no table, some table otherwise.  A missing table appends a
diagnostic and skips the page; a fetched table is processed, and any
exception from that processing escapes uncaught, as in the source. -/
def pageStep (fetch : String → Option Table)
    (st : List (String × ActionMap) × List String) (u : String) :
    Except ProcessError (List (String × ActionMap) × List String) :=
  match fetch u with
  | none => .ok (st.1, st.2 ++ [missingTableMsg u])
  | some t =>
    match process_actions_table t with
    | .error e => .error e
    | .ok recs => .ok (recs.foldl insertRec st.1, st.2)

/-- The page loop of generate_action_map over the configured url names. -/
def mergePages (fetch : String → Option Table) (urlNames : List String) :
    Except ProcessError (List (String × ActionMap) × List String) :=
  urlNames.foldlM (pageStep fetch) ([], [])

/-- The gap set, iterated deterministically: distinct authoritative
identifiers absent from the merge map, in first-occurrence order
(Python iterates the set difference set(acts) - set(actions)). -/
def gapIds (acts : List String) (m : List (String × ActionMap)) :
    List String :=
  (dedupKeepFirst acts).filter (fun a => (m.lookup a).isNone)

/-- Shallow embedding of generate_action_map (lines 516-553),
parameterized by the URL_MAP configuration and the fetch oracle.  The
url names come from URL_MAP.get(name, []); an empty list adds the
missing-URL-map diagnostic; pages merge first-documented-wins; then
every authoritative identifier absent from the merge map is added as a
synthesized record with one diagnostic each. -/
def generate_action_map (urlMap : List (String × List String))
    (fetch : String → Option Table) (name : String) (acts : List String) :
    Except ProcessError (List (String × ActionMap) × List String) :=
  match mergePages fetch ((urlMap.lookup name).getD []) with
  | .error e => .error e
  | .ok (merged, perrs) =>
    .ok (merged ++ (gapIds acts merged).map (fun a => (a, undocRecord a)),
         (if ((urlMap.lookup name).getD []).isEmpty
            then [missingUrlMsg name] else [])
           ++ perrs ++ (gapIds acts merged).map (undocMsg name))

/-- One iteration of the service loop of create_action_map: generate
the named service's map, collect it and append its errors; any
exception escapes. -/
def serviceStep (urlMap : List (String × List String))
    (fetch : String → Option Table) (services : List (String × List String))
    (st : List (String × List (String × ActionMap)) × List String)
    (n : String) :
    Except ProcessError
      (List (String × List (String × ActionMap)) × List String) :=
  match generate_action_map urlMap fetch n ((services.lookup n).getD []) with
  | .error e => .error e
  | .ok (pmap, aerrs) => .ok (st.1 ++ [(n, pmap)], st.2 ++ aerrs)

/-- Shallow embedding of create_action_map (lines 571-587).  The
missing argument models the missing_services() result; services maps
each service name to its authoritative action list.  Python iterates
sorted(services.keys()), collects each generated map, concatenates the
error lists, and sorts them; an exception from any service's generation
escapes uncaught. -/
def create_action_map (urlMap : List (String × List String))
    (fetch : String → Option Table) (missing : List String)
    (services : List (String × List String)) :
    Except ProcessError
      (List (String × List (String × ActionMap)) × List String) :=
  match (sortStrings (dedupKeepFirst (services.map Prod.fst))).foldlM
      (serviceStep urlMap fetch services)
      ([], missing.map
        (fun s => "Unmapped service is being published: " ++ s)) with
  | .error e => .error e
  | .ok (amap, errs) => .ok (amap, sortStrings errs)

/-- An HTML table element as the locator sees it: its th header texts
in order, and its body (the tr/td content handed to the flattener). -/
structure HtmlTable where
  headers : List String
  body : Table
deriving Repr, DecidableEq

/-- The six expected header strings, already lowercased (lines
434-441). -/
def expectedHeaders : List String :=
  ["actions", "description", "access level",
   "resource types (*required)", "condition keys", "dependent actions"]

/-- Set equality of the lowercased header texts with the expected set,
the model of the Python set comparison (line 450). -/
def headerSetMatches (hs : List String) : Bool :=
  let ls := hs.map pyLower
  expectedHeaders.all (fun e => ls.contains e)
    && ls.all (fun x => expectedHeaders.contains x)

/-- Shallow embedding of find_actions_table (lines 415-451), applied to
the parsed document: the list of div class="table-contents" elements in
document order, each carrying its table elements in order.  Python
takes the first table of each such div — an IndexError where the div
holds none, modelled as the error case — and returns the first taken
table whose lowercased th texts form exactly the expected set; falling
off the loop returns Python None, modelled as ok none. -/
def find_actions_table : List (List HtmlTable) → Except Unit (Option HtmlTable)
  | [] => .ok none
  | div :: rest =>
    match div with
    | [] => .error ()
    | t :: _ =>
      if headerSetMatches t.headers then .ok (some t)
      else find_actions_table rest

/-!
Specification-level observations about the embedded functions, written
against the same data, used to state the claims.
-/

/-- The records one page contributes: none where the page has no
qualifying table, the processed records otherwise.  The error branch
is a totalization artifact; it is never reached when the surrounding
page fold succeeds. -/
def pageRecs (fetch : String → Option Table) (u : String) : List ActionMap :=
  match fetch u with
  | none => []
  | some t =>
    match process_actions_table t with
    | .error _ => []
    | .ok recs => recs

/-- All records documented by the given pages, in configured page order
and row order within each page. -/
def docStream (fetch : String → Option Table) (us : List String) :
    List ActionMap :=
  us.flatMap (pageRecs fetch)

/-- The first record of a stream carrying the given action name. -/
def firstWithAction (a : String) (l : List ActionMap) : Option ActionMap :=
  l.find? (fun r => r.action == a)

/-- The gap identifiers of a group, stated against the documented
stream: distinct authoritative identifiers documented by no page. -/
def gapIdsSpec (fetch : String → Option Table) (us : List String)
    (acts : List String) : List String :=
  (dedupKeepFirst acts).filter
    (fun a => (firstWithAction a (docStream fetch us)).isNone)

/-- Number of cells the inner column loop consumes from a non-ignored
physical row at the given state: one per column whose span counter is
exhausted. -/
def neededCells : List (Nat × String) → Nat
  | [] => 0
  | (sp, _) :: cols => (if sp > 1 then 0 else 1) + neededCells cols

/-- A cell with empty text and span 1, the headD fallback. -/
def defaultCell : Cell := { text := "" }

/-- Fuel-structured block counting; fuel as in flattenAux. -/
def blockCountAux : Nat → Table → Nat
  | _, [] => 0
  | 0, _ :: _ => 0
  | fuel + 1, row :: rest =>
    1 + blockCountAux fuel (rest.drop ((row.headD defaultCell).rowspan - 1))

/-- Number of logical row-span blocks of a table: each block consumes
one row plus its first cell's declared rowspan minus one further rows. -/
def blockCount (t : Table) : Nat := blockCountAux t.length t

/-- Space-join a base string with a list of later contributions. -/
def joinCol (base : String) (cs : List String) : String :=
  cs.foldl (fun acc s => acc ++ " " ++ s) base

/-- Whether a physical continuation row is skipped for content. -/
def rowIgnored (r : Row) : Bool := isIgnoreRow (r.headD defaultCell)

/-- The continuation rows whose text is appended. -/
def contribRows (crows : List Row) : List Row :=
  crows.filter (fun r => !(rowIgnored r))

/-- Number of columns of a block's first row not spanned past the first
physical row, i.e. with declared span at most 1. -/
def consumingCount (fr : Row) : Nat :=
  (fr.filter (fun cell => !(1 < cell.rowspan))).length

/-- The column-loop state for a span block whose first-row spans are
all 1 or the block height: an inherited column carries its counter
decremented by the number of processed physical rows and the first
row's trimmed text; a consuming column carries counter 1 and the
running space-joined string built from its contribution list. -/
def mixedState (done : Nat) : Row → List (List String) → List (Nat × String)
  | [], _ => []
  | cell :: rest, css =>
    if 1 < cell.rowspan then
      (cell.rowspan - done, pyStrip cell.text) :: mixedState done rest css
    else
      match css with
      | [] => (1, pyStrip cell.text) :: mixedState done rest []
      | cs :: cssRest =>
        (1, joinCol (pyStrip cell.text) cs) :: mixedState done rest cssRest

/-- Per-row update of the per-consuming-column contributions. -/
def zipAppend (css : List (List String)) (r : List Cell) :
    List (List String) :=
  List.zipWith (fun cs cell => cs ++ [pyStrip cell.text]) css r

/-- Accumulated per-consuming-column contributions of a list of
continuation rows. -/
def finalCss (css : List (List String)) (crows : List Row) :
    List (List String) :=
  crows.foldl (fun acc r => if rowIgnored r then acc else zipAppend acc r) css

/-- The specified flat row of a span block: an inherited column keeps
the first row's trimmed text; a consuming column joins the first row's
trimmed text with the corresponding trimmed cell of each non-ignored
continuation row, space separated. -/
def specCols (crows : List Row) : Row → Nat → List String
  | [], _ => []
  | cell :: rest, j =>
    if 1 < cell.rowspan then
      pyStrip cell.text :: specCols crows rest j
    else
      joinCol (pyStrip cell.text)
          ((contribRows crows).map (fun r => pyStrip (r.getD j defaultCell).text))
        :: specCols crows rest (j + 1)

/-- The specified flat row of a whole block. -/
def specBlockRow (fr : Row) (crows : List Row) : List String :=
  specCols crows fr 0

/-!
Concrete instances used by witnesses and counterexamples.
-/

/-- Cell construction shorthand. -/
def mkCell (s : String) (n : Nat := 1) : Cell := { text := s, rowspan := n }

/-- A first row opening a two-row block in column 0. -/
def exSpanFirst : Row :=
  [mkCell "x" 2, mkCell "d1", mkCell "Read", mkCell "r1", mkCell "k1",
   mkCell "e1"]

/-- A continuation row with six cells where only five are required:
columns 1-5 consume one cell each and the sixth cell is extra. -/
def exSpanOver : Row :=
  [mkCell "d2", mkCell "R", mkCell "r", mkCell "k", mkCell "e",
   mkCell "EXTRA"]

/-- Scenario B first row: column 1 spans the whole 3-row block. -/
def scenBFirst : Row :=
  [mkCell "x" 3, mkCell "d1", mkCell "Read", mkCell "r1", mkCell "k1",
   mkCell "e1"]

/-- Scenario B second physical row. -/
def scenBRow2 : Row :=
  [mkCell "d2", mkCell "Read2", mkCell "r2", mkCell "k2", mkCell "e2"]

/-- Scenario B third physical row. -/
def scenBRow3 : Row :=
  [mkCell "d3", mkCell "Read3", mkCell "r3", mkCell "k3", mkCell "e3"]

/-- A span-free two-block table. -/
def exPlainTable : Table :=
  [[mkCell "a1", mkCell "a2", mkCell "Read", mkCell "r", mkCell "k",
    mkCell "d"],
   [mkCell "b1", mkCell "b2", mkCell "Write", mkCell "", mkCell "",
    mkCell ""]]

/-- A table whose only row carries an identifier cell that is blank
once the permission-only marker is stripped. -/
def exEmptyIdTable : Table :=
  [[mkCell " [permission only] ", mkCell "desc", mkCell "Read", mkCell "",
    mkCell "", mkCell ""]]

/-- A table whose only row carries a starred condition key. -/
def exStarKeyTable : Table :=
  [[mkCell "a:Act", mkCell "desc", mkCell "Read", mkCell "res*",
    mkCell "key*", mkCell ""]]

/-- A table-contents table with a non-matching header set. -/
def exBadHeaderTable : HtmlTable := { headers := ["foo"], body := [] }

/-- A table-contents table with the qualifying header set. -/
def exGoodHeaderTable : HtmlTable :=
  { headers :=
      ["Actions", "Description", "Access Level",
       "Resource Types (*required)", "Condition Keys", "Dependent Actions"]
    body := [] }

/-- A one-row table documenting b:List with the first description. -/
def exDupTableFirst : Table :=
  [[mkCell "b:List", mkCell "first", mkCell "Read", mkCell "", mkCell "",
    mkCell ""]]

/-- A one-row table documenting b:List with a second description. -/
def exDupTableSecond : Table :=
  [[mkCell "b:List", mkCell "second", mkCell "Write", mkCell "", mkCell "",
    mkCell ""]]

/-- A fetch oracle serving the two duplicate-documentation pages. -/
def exDupFetch : String → Option Table := fun u =>
  if u = "p1" then some exDupTableFirst
  else if u = "p2" then some exDupTableSecond
  else none

/-- A one-row table whose access-level cell is outside the vocabulary. -/
def exBadLevelTable : Table :=
  [[mkCell "a:Get", mkCell "d", mkCell "Maybe", mkCell "", mkCell "",
    mkCell ""]]

/-- A fetch oracle with one broken page and one healthy page. -/
def exMixedFetch : String → Option Table := fun u =>
  if u = "bad" then some exBadLevelTable else some exDupTableFirst

/-- The record the first duplicate page documents for b:List. -/
def exDupRecord : ActionMap :=
  { action := "b:List", access_level := .READ, description := "first" }

/-- A first block row that leaves a span counter above 1 at block end:
its own rowspan is 1 but column 1 declares rowspan 2. -/
def exUnclosedRow : Row :=
  [mkCell "x" 1, mkCell "d" 2, mkCell "Read", mkCell "r", mkCell "k",
   mkCell "e"]

/-- A row with fewer than six cells. -/
def exShortRow : Row := [mkCell "only"]

/-!
General helper lemmas.
-/

theorem mem_insertSorted {b a : String} : ∀ {l : List String},
    b ∈ insertSorted a l ↔ b = a ∨ b ∈ l := by
  intro l
  induction l with
  | nil => simp [insertSorted]
  | cons x xs ih =>
    cases h : strLe a x with
    | true => simp [insertSorted, h]
    | false =>
      simp only [insertSorted, h, Bool.false_eq_true, if_false, List.mem_cons,
        ih]
      tauto

theorem mem_sortStrings {b : String} : ∀ {l : List String},
    b ∈ sortStrings l ↔ b ∈ l := by
  intro l
  induction l with
  | nil => simp [sortStrings]
  | cons x xs ih =>
    show b ∈ insertSorted x (sortStrings xs) ↔ _
    rw [mem_insertSorted, ih]
    simp

theorem mem_dedupKeepFirst {b : String} : ∀ {l : List String},
    b ∈ dedupKeepFirst l ↔ b ∈ l := by
  intro l
  induction l with
  | nil => simp [dedupKeepFirst]
  | cons a rest ih =>
    simp only [dedupKeepFirst, List.mem_cons, List.mem_filter, ih,
      decide_eq_true_eq]
    by_cases hb : b = a
    · simp [hb]
    · simp [hb]

theorem nodup_dedupKeepFirst : ∀ {l : List String},
    (dedupKeepFirst l).Nodup := by
  intro l
  induction l with
  | nil => simp [dedupKeepFirst]
  | cons a rest ih =>
    refine List.nodup_cons.mpr ⟨?_, List.Nodup.filter _ ih⟩
    intro hmem
    have := (List.mem_filter.mp hmem).2
    simp at this

theorem append_inj_right {p a b : String} (h : p ++ a = p ++ b) : a = b := by
  have hd := congrArg String.data h
  simp only [String.data_append] at hd
  exact String.ext (List.append_cancel_left hd)

theorem head_of_append (s t : String) (c : Char) (cs : List Char)
    (hs : s.data = c :: cs) : (s ++ t).data.head? = some c := by
  rw [String.data_append, hs]
  rfl

theorem undocMsg_head (name a : String) :
    (undocMsg name a).data.head? = some 'U' := by
  have hs : (("Undocumented action found: " ++ name) ++ ":").data
      = 'U' :: (("ndocumented action found: " ++ name) ++ ":").data := by
    simp only [String.data_append]
    rfl
  exact head_of_append _ _ 'U' _ hs

theorem missingTableMsg_head (u : String) :
    (missingTableMsg u).data.head? = some 'P' :=
  head_of_append _ _ 'P' _ rfl

theorem missingUrlMsg_head (n : String) :
    (missingUrlMsg n).data.head? = some 'S' :=
  head_of_append _ _ 'S' _ rfl

theorem undocMsg_ne_missingTableMsg {name a u : String} :
    undocMsg name a ≠ missingTableMsg u := by
  intro h
  have h2 := congrArg (fun s => s.data.head?) h
  simp only [undocMsg_head, missingTableMsg_head] at h2
  exact absurd h2 (by decide)

theorem undocMsg_ne_missingUrlMsg {name a n : String} :
    undocMsg name a ≠ missingUrlMsg n := by
  intro h
  have h2 := congrArg (fun s => s.data.head?) h
  simp only [undocMsg_head, missingUrlMsg_head] at h2
  exact absurd h2 (by decide)

theorem undocMsg_injective (name : String) :
    Function.Injective (undocMsg name) := by
  intro a b h
  exact append_inj_right h

/-!
Facts about buildRecord.
-/

theorem buildRecord_ok_fields {row : List String} {m : ActionMap}
    (h : buildRecord row = .ok m) :
    m.action = pyStrip (pyReplace (row.getD 0 "") "[permission only]" "") ∧
    m.condition_keys = sortStrings (dedupKeepFirst (splitWs (row.getD 4 ""))) ∧
    m.resources =
      sortStrings (dedupKeepFirst ((splitWs (row.getD 3 "")).map stripStars)) ∧
    m.orphan = false := by
  unfold buildRecord at h
  cases hv : AccessLevel.ofValue (row.getD 2 "") <;> rw [hv] at h
  · exact absurd h (by simp)
  · simp only [Except.ok.injEq] at h
    rw [← h]
    exact ⟨rfl, rfl, rfl, rfl⟩

theorem buildRecord_ok_iff {row : List String} :
    (∃ m, buildRecord row = .ok m) ↔
      (AccessLevel.ofValue (row.getD 2 "")).isSome := by
  unfold buildRecord
  cases hv : AccessLevel.ofValue (row.getD 2 "") <;> simp

theorem stripStars_no_star (s : String) :
    ∀ ch ∈ (stripStars s).toList, ch ≠ '*' := by
  intro ch hc
  have hmem : ch ∈ s.toList.filter (fun c => c ≠ '*') := hc
  have := (List.mem_filter.mp hmem).2
  simpa using this

theorem buildRecord_resources_no_star {row : List String} {m : ActionMap}
    (h : buildRecord row = .ok m) :
    ∀ s ∈ m.resources, ∀ ch ∈ s.toList, ch ≠ '*' := by
  intro s hs
  rw [(buildRecord_ok_fields h).2.2.1] at hs
  rw [mem_sortStrings, mem_dedupKeepFirst] at hs
  obtain ⟨x, _, hx⟩ := List.mem_map.mp hs
  rw [← hx]
  exact stripStars_no_star x

/-- Counterexample to claim C8: record construction performs no
emptiness check on the identifier.  A one-row table whose identifier
cell holds only the permission-only marker and spaces is processed
without any fatal error and yields a record whose action field is the
empty string. -/
theorem c8_counterexample_empty_identifier :
    process_actions_table exEmptyIdTable =
      .ok [{ action := "", access_level := .READ, condition_keys := [],
             description := "desc", orphan := false, resources := [] }] := rfl

/-- Claim C8 (amended): record construction strips the literal
permission-only annotation and then trims the identifier field, and the
only fatal condition of record construction is an access-level value
outside the vocabulary; the resulting identifier is not checked for
emptiness, so a record with an empty identifier can be produced. -/
theorem c8_identifier_normalization (row : List String) :
    (∀ m, buildRecord row = .ok m →
        m.action = pyStrip (pyReplace (row.getD 0 "") "[permission only]" "")) ∧
    ((∃ m, buildRecord row = .ok m) ↔
      (AccessLevel.ofValue (row.getD 2 "")).isSome) :=
  ⟨fun _ h => (buildRecord_ok_fields h).1, buildRecord_ok_iff⟩

/-- Witness for c8_identifier_normalization at a concrete row. -/
theorem c8_identifier_normalization_witness :
    ({ action := "x", access_level := .READ, condition_keys := [],
       description := "d", orphan := false, resources := [] } : ActionMap).action
        = pyStrip (pyReplace "x [permission only] " "[permission only]" "") ∧
    (AccessLevel.ofValue "Read").isSome :=
  ⟨(c8_identifier_normalization
      ["x [permission only] ", "d", "Read", "", "", ""]).1 _ rfl,
   (c8_identifier_normalization
      ["x [permission only] ", "d", "Read", "", "", ""]).2.mp ⟨_, rfl⟩⟩

/-- Counterexample to claim C9: condition keys are not star-stripped.
The starred condition key cell "key*" survives verbatim in the record,
while the starred resource cell "res*" is stripped to "res"; under the
claim the condition_keys list would be ["key"]. -/
theorem c9_counterexample_star_kept :
    process_actions_table exStarKeyTable =
      .ok [{ action := "a:Act", access_level := .READ,
             condition_keys := ["key*"], description := "desc",
             orphan := false, resources := ["res"] }] := rfl

/-- Claim C9 (amended): the condition-keys field is split on
whitespace, deduplicated and sorted, but its wildcard stars are NOT
stripped; only the resources field is star-stripped (every asterisk
removed from every token). -/
theorem c9_condition_key_normalization (row : List String) (m : ActionMap)
    (h : buildRecord row = .ok m) :
    m.condition_keys = sortStrings (dedupKeepFirst (splitWs (row.getD 4 ""))) ∧
    (∀ s ∈ m.resources, ∀ ch ∈ s.toList, ch ≠ '*') :=
  ⟨(buildRecord_ok_fields h).2.1, buildRecord_resources_no_star h⟩

/-- Witness for c9_condition_key_normalization at a concrete row. -/
theorem c9_condition_key_normalization_witness :
    (["k1*", "k2"] : List String) =
      sortStrings (dedupKeepFirst (splitWs "k1* k2 k1*")) ∧
    ('r' : Char) ≠ '*' := by
  have h := c9_condition_key_normalization ["a", "d", "Read", "r*", "k1* k2 k1*", ""]
    { action := "a", access_level := .READ, condition_keys := ["k1*", "k2"],
      description := "d", orphan := false, resources := ["r"] } rfl
  exact ⟨h.1, h.2 "r" (by simp) 'r' (by simp)⟩

/-- Counterexample to claim C10: the locator only ever examines the
first table of each table-contents div, so a qualifying table that is
the second table of its div is never returned — the document holds a
table whose header set matches exactly, yet the result is none. -/
theorem c10_counterexample_second_table_missed :
    find_actions_table [[exBadHeaderTable, exGoodHeaderTable]] = .ok none ∧
    headerSetMatches exGoodHeaderTable.headers = true := ⟨rfl, rfl⟩

/-- Claim C10 (amended): the locator scans the table-contents divs in
document order and considers only the first table of each div; a
returned table always has the exactly matching lowercased header set
AND is the first table of some div of the document such that the first
table of every earlier div fails the match — i.e. it is the first
matching first-of-div candidate in document order; and it returns none
only when every div's first candidate fails the match, so a qualifying
table that is not the first table of its div is never found. -/
theorem c10_header_set_locator :
    (∀ (doc : List (List HtmlTable)) (t : HtmlTable),
        find_actions_table doc = .ok (some t) →
        headerSetMatches t.headers = true ∧
        ∃ pre ts post, doc = pre ++ ((t :: ts) :: post) ∧
          ∀ d ∈ pre, ∃ t0 ts0, d = t0 :: ts0 ∧
            headerSetMatches t0.headers = false) ∧
    (∀ (doc : List (List HtmlTable)),
        find_actions_table doc = .ok none →
        ∀ div ∈ doc, ∃ t rest, div = t :: rest ∧
          headerSetMatches t.headers = false) := by
  constructor
  · intro doc
    induction doc with
    | nil => intro t h; simp [find_actions_table] at h
    | cons div rest ih =>
      intro t h
      match div with
      | [] => simp [find_actions_table] at h
      | t0 :: ts =>
        simp only [find_actions_table] at h
        cases hm : headerSetMatches t0.headers with
        | true =>
          rw [hm] at h
          simp only [if_true, Except.ok.injEq, Option.some.injEq] at h
          rw [← h]
          exact ⟨hm, [], ts, rest, rfl, by simp⟩
        | false =>
          rw [hm] at h
          simp only [Bool.false_eq_true, if_false] at h
          obtain ⟨hmt, pre, ts2, post, hsplit, hpre⟩ := ih t h
          refine ⟨hmt, (t0 :: ts) :: pre, ts2, post, ?_, ?_⟩
          · rw [hsplit]
            rfl
          · intro d hd
            rcases List.mem_cons.mp hd with h1 | h2
            · exact ⟨t0, ts, h1, hm⟩
            · exact hpre d h2
  · intro doc
    induction doc with
    | nil => intro h div hdiv; simp at hdiv
    | cons div rest ih =>
      intro h d hd
      match div with
      | [] => simp [find_actions_table] at h
      | t0 :: ts =>
        simp only [find_actions_table] at h
        cases hm : headerSetMatches t0.headers with
        | true => rw [hm] at h; simp at h
        | false =>
          rw [hm] at h
          simp only [Bool.false_eq_true, if_false] at h
          rcases List.mem_cons.mp hd with h1 | h2
          · exact ⟨t0, ts, h1, hm⟩
          · exact ih h d h2

/-- Witness for c10_header_set_locator at concrete documents: in a
two-div document whose first div holds a non-matching table, the
matching second-div table is returned and located after the failing
first candidate. -/
theorem c10_header_set_locator_witness :
    (headerSetMatches exGoodHeaderTable.headers = true ∧
      ∃ pre ts post,
        ([[exBadHeaderTable], [exGoodHeaderTable]] : List (List HtmlTable))
          = pre ++ ((exGoodHeaderTable :: ts) :: post) ∧
        ∀ d ∈ pre, ∃ t0 ts0, d = t0 :: ts0 ∧
          headerSetMatches t0.headers = false) ∧
    (∃ t rest, [exBadHeaderTable] = t :: rest ∧
      headerSetMatches t.headers = false) :=
  ⟨c10_header_set_locator.1 [[exBadHeaderTable], [exGoodHeaderTable]]
      exGoodHeaderTable rfl,
   c10_header_set_locator.2 [[exBadHeaderTable]] rfl [exBadHeaderTable]
     (by simp)⟩

/-!
The orphan flag across the pipeline (claim C3).
-/

theorem mapM_buildRecord_orphan :
    ∀ (rows : List (List String)) (recs : List ActionMap),
      rows.mapM buildRecord = .ok recs → ∀ r ∈ recs, r.orphan = false := by
  intro rows
  induction rows with
  | nil =>
    intro recs h r hr
    rw [List.mapM_nil] at h
    have h2 : ([] : List ActionMap) = recs := Except.ok.inj h
    rw [← h2] at hr
    simp at hr
  | cons row rest ih =>
    intro recs h r hr
    rw [List.mapM_cons] at h
    cases hb : buildRecord row <;> rw [hb] at h
    · exact Except.noConfusion h
    · cases hm : rest.mapM buildRecord <;> rw [hm] at h
      · exact Except.noConfusion h
      · have h2 := Except.ok.inj h
        rw [← h2] at hr
        rcases List.mem_cons.mp hr with h1 | h3
        · rw [h1]
          exact (buildRecord_ok_fields hb).2.2.2
        · exact ih _ hm r h3

theorem process_ok_orphan {t : Table} {recs : List ActionMap}
    (h : process_actions_table t = .ok recs) :
    ∀ r ∈ recs, r.orphan = false := by
  unfold process_actions_table at h
  cases hf : flatten_table t <;> rw [hf] at h
  · exact Except.noConfusion h
  · exact mapM_buildRecord_orphan _ _ h

theorem foldl_insertRec_orphan :
    ∀ (recs : List ActionMap) (m : List (String × ActionMap)),
      (∀ p ∈ m, p.2.orphan = false) → (∀ r ∈ recs, r.orphan = false) →
      ∀ p ∈ recs.foldl insertRec m, p.2.orphan = false := by
  intro recs
  induction recs with
  | nil => intro m hm _ p hp; exact hm p hp
  | cons r rest ih =>
    intro m hm hr p hp
    rw [List.foldl_cons] at hp
    refine ih (insertRec m r) ?_
      (fun x hx => hr x (List.mem_cons_of_mem _ hx)) p hp
    intro q hq
    unfold insertRec at hq
    by_cases hs : (m.lookup r.action).isSome
    · rw [if_pos hs] at hq
      exact hm q hq
    · rw [if_neg hs] at hq
      rcases List.mem_append.mp hq with h1 | h2
      · exact hm q h1
      · simp only [List.mem_singleton] at h2
        rw [h2]
        exact hr r (List.mem_cons_self r rest)

theorem pageStep_none {fetch : String → Option Table}
    {st : List (String × ActionMap) × List String} {u : String}
    (hf : fetch u = none) :
    pageStep fetch st u = .ok (st.1, st.2 ++ [missingTableMsg u]) := by
  unfold pageStep
  rw [hf]

theorem pageStep_some_ok {fetch : String → Option Table}
    {st : List (String × ActionMap) × List String} {u : String} {t : Table}
    {recs : List ActionMap} (hf : fetch u = some t)
    (hp : process_actions_table t = .ok recs) :
    pageStep fetch st u = .ok (recs.foldl insertRec st.1, st.2) := by
  unfold pageStep
  rw [hf]
  dsimp only
  rw [hp]

theorem pageStep_some_error {fetch : String → Option Table}
    {st : List (String × ActionMap) × List String} {u : String} {t : Table}
    {e : ProcessError} (hf : fetch u = some t)
    (hp : process_actions_table t = .error e) :
    pageStep fetch st u = .error e := by
  unfold pageStep
  rw [hf]
  dsimp only
  rw [hp]

theorem pagesFold_orphan (fetch : String → Option Table) :
    ∀ (us : List String) (m0 : List (String × ActionMap)) (e0 : List String)
      (m : List (String × ActionMap)) (e : List String),
      us.foldlM (pageStep fetch) (m0, e0) = .ok (m, e) →
      (∀ p ∈ m0, p.2.orphan = false) → ∀ p ∈ m, p.2.orphan = false := by
  intro us
  induction us with
  | nil =>
    intro m0 e0 m e h hm0
    rw [List.foldlM_nil] at h
    have h2 := Except.ok.inj h
    rw [← (Prod.mk.injEq _ _ _ _).mp h2 |>.1]
    exact hm0
  | cons u rest ih =>
    intro m0 e0 m e h hm0
    rw [List.foldlM_cons] at h
    cases hf : fetch u with
    | none =>
      rw [pageStep_none hf] at h
      exact ih _ _ _ _ h hm0
    | some t =>
      cases hp : process_actions_table t with
      | error e2 =>
        rw [pageStep_some_error hf hp] at h
        exact Except.noConfusion h
      | ok recs =>
        rw [pageStep_some_ok hf hp] at h
        exact ih _ _ _ _ h
          (foldl_insertRec_orphan _ _ hm0 (process_ok_orphan hp))

/-- Counterexample to claim C3: a record synthesized for an
authoritative-but-undocumented identifier carries orphan = false — the
dataclass default — not true; the generator never sets the flag. -/
theorem c3_counterexample_orphan_false :
    generate_action_map [] (fun _ => none) "a" ["Get"] =
      .ok ([("Get", undocRecord "Get")],
           ["Service missing URL map: a", "Undocumented action found: a:Get"]) ∧
    (undocRecord "Get").orphan = false := ⟨rfl, rfl⟩

/-- Claim C3 (amended): the orphan flag is false on every record of a
successful generate_action_map result — on records built from
documented table rows and equally on records synthesized for
authoritative-but-undocumented identifiers; the flag is never true. -/
theorem c3_orphan_always_false (urlMap : List (String × List String))
    (fetch : String → Option Table) (name : String) (acts : List String)
    (as : List (String × ActionMap)) (es : List String)
    (h : generate_action_map urlMap fetch name acts = .ok (as, es)) :
    ∀ p ∈ as, p.2.orphan = false := by
  unfold generate_action_map at h
  cases hm : mergePages fetch ((urlMap.lookup name).getD []) with
  | error e => rw [hm] at h; exact Except.noConfusion h
  | ok mp =>
    obtain ⟨merged, perrs⟩ := mp
    rw [hm] at h
    have hx := (Prod.mk.injEq _ _ _ _).mp (Except.ok.inj h)
    intro p hp
    rw [← hx.1] at hp
    rcases List.mem_append.mp hp with h1 | hgap
    · exact pagesFold_orphan fetch _ [] [] merged perrs hm (by simp) p h1
    · obtain ⟨a, _, hpa⟩ := List.mem_map.mp hgap
      rw [← hpa]
      rfl

/-- Witness for c3_orphan_always_false at a concrete group. -/
theorem c3_orphan_always_false_witness :
    (("Get", undocRecord "Get") : String × ActionMap).2.orphan = false :=
  c3_orphan_always_false [] (fun _ => none) "a" ["Get"]
    [("Get", undocRecord "Get")]
    ["Service missing URL map: a", "Undocumented action found: a:Get"] rfl
    ("Get", undocRecord "Get") (List.mem_singleton.mpr rfl)

/-!
Error propagation of the page and service loops (claim C2).
-/

theorem pagesFold_error_iff (fetch : String → Option Table) :
    ∀ (us : List String) (m0 : List (String × ActionMap)) (e0 : List String),
      (∃ e, us.foldlM (pageStep fetch) (m0, e0) = .error e) ↔
      (∃ u ∈ us, ∃ t e, fetch u = some t ∧
        process_actions_table t = .error e) := by
  intro us
  induction us with
  | nil =>
    intro m0 e0
    constructor
    · rintro ⟨e, h⟩
      rw [List.foldlM_nil] at h
      exact Except.noConfusion h
    · rintro ⟨u, hu, _⟩
      simp at hu
  | cons u rest ih =>
    intro m0 e0
    constructor
    · rintro ⟨e, h⟩
      rw [List.foldlM_cons] at h
      cases hf : fetch u with
      | none =>
        rw [pageStep_none hf] at h
        obtain ⟨v, hv, t, e2, hft, hpt⟩ := (ih _ _).mp ⟨e, h⟩
        exact ⟨v, List.mem_cons_of_mem _ hv, t, e2, hft, hpt⟩
      | some t =>
        cases hp : process_actions_table t with
        | error e2 =>
          exact ⟨u, List.mem_cons_self u rest, t, e2, hf, hp⟩
        | ok recs =>
          rw [pageStep_some_ok hf hp] at h
          obtain ⟨v, hv, t2, e2, hft, hpt⟩ := (ih _ _).mp ⟨e, h⟩
          exact ⟨v, List.mem_cons_of_mem _ hv, t2, e2, hft, hpt⟩
    · rintro ⟨v, hv, t, e2, hft, hpt⟩
      rw [List.foldlM_cons]
      rcases List.mem_cons.mp hv with h1 | h2
      · subst h1
        rw [pageStep_some_error hft hpt]
        exact ⟨e2, rfl⟩
      · cases hf : fetch u with
        | none =>
          rw [pageStep_none hf]
          exact (ih _ _).mpr ⟨v, h2, t, e2, hft, hpt⟩
        | some tu =>
          cases hp : process_actions_table tu with
          | error eu =>
            rw [pageStep_some_error hf hp]
            exact ⟨eu, rfl⟩
          | ok recs =>
            rw [pageStep_some_ok hf hp]
            exact (ih _ _).mpr ⟨v, h2, t, e2, hft, hpt⟩

theorem generate_error_iff (urlMap : List (String × List String))
    (fetch : String → Option Table) (name : String) (acts : List String) :
    (∃ e, generate_action_map urlMap fetch name acts = .error e) ↔
    (∃ u ∈ (urlMap.lookup name).getD [], ∃ t e, fetch u = some t ∧
      process_actions_table t = .error e) := by
  constructor
  · rintro ⟨e, h⟩
    unfold generate_action_map at h
    cases hm : mergePages fetch ((urlMap.lookup name).getD []) with
    | error e2 =>
      exact (pagesFold_error_iff fetch _ [] []).mp ⟨e2, hm⟩
    | ok mp =>
      obtain ⟨merged, perrs⟩ := mp
      rw [hm] at h
      exact Except.noConfusion h
  · intro hex
    obtain ⟨e2, h2⟩ := (pagesFold_error_iff fetch _ [] []).mpr hex
    refine ⟨e2, ?_⟩
    unfold generate_action_map
    rw [show mergePages fetch ((urlMap.lookup name).getD []) = .error e2
      from h2]

theorem pagesFold_errors (fetch : String → Option Table) :
    ∀ (us : List String) (m0 : List (String × ActionMap)) (e0 : List String)
      (m : List (String × ActionMap)) (e : List String),
      us.foldlM (pageStep fetch) (m0, e0) = .ok (m, e) →
      e = e0 ++ (us.filter (fun u => (fetch u).isNone)).map missingTableMsg := by
  intro us
  induction us with
  | nil =>
    intro m0 e0 m e h
    rw [List.foldlM_nil] at h
    have h2 := (Prod.mk.injEq _ _ _ _).mp (Except.ok.inj h)
    rw [← h2.2]
    simp
  | cons u rest ih =>
    intro m0 e0 m e h
    rw [List.foldlM_cons] at h
    cases hf : fetch u with
    | none =>
      rw [pageStep_none hf] at h
      rw [ih _ _ _ _ h]
      simp [List.filter_cons, hf]
    | some t =>
      cases hp : process_actions_table t with
      | error e2 =>
        rw [pageStep_some_error hf hp] at h
        exact Except.noConfusion h
      | ok recs =>
        rw [pageStep_some_ok hf hp] at h
        rw [ih _ _ _ _ h]
        simp [List.filter_cons, hf]

theorem serviceFold_error (urlMap : List (String × List String))
    (fetch : String → Option Table) (services : List (String × List String)) :
    ∀ (names : List String)
      (st : List (String × List (String × ActionMap)) × List String),
      (∃ n ∈ names, ∃ e, generate_action_map urlMap fetch n
          ((services.lookup n).getD []) = .error e) →
      ∃ e, names.foldlM (serviceStep urlMap fetch services) st = .error e := by
  intro names
  induction names with
  | nil =>
    intro st h
    obtain ⟨n, hn, _⟩ := h
    simp at hn
  | cons n rest ih =>
    intro st h
    rw [List.foldlM_cons]
    cases hg : generate_action_map urlMap fetch n
        ((services.lookup n).getD []) with
    | error e =>
      refine ⟨e, ?_⟩
      have hstep : serviceStep urlMap fetch services st n = .error e := by
        unfold serviceStep
        rw [hg]
      rw [hstep]
      rfl
    | ok pr =>
      obtain ⟨pmap, aerrs⟩ := pr
      obtain ⟨v, hv, e2, hg2⟩ := h
      rcases List.mem_cons.mp hv with h1 | h2
      · subst h1
        rw [hg] at hg2
        exact Except.noConfusion hg2
      · have hstep : serviceStep urlMap fetch services st n =
            .ok (st.1 ++ [(n, pmap)], st.2 ++ aerrs) := by
          unfold serviceStep
          rw [hg]
        rw [hstep]
        exact ih _ ⟨v, h2, e2, hg2⟩

theorem generate_ok_missing_diag {urlMap : List (String × List String)}
    {fetch : String → Option Table} {name : String} {acts : List String}
    {as : List (String × ActionMap)} {es : List String} {u : String}
    (h : generate_action_map urlMap fetch name acts = .ok (as, es))
    (hu : u ∈ (urlMap.lookup name).getD []) (hf : fetch u = none) :
    missingTableMsg u ∈ es := by
  unfold generate_action_map at h
  cases hm : mergePages fetch ((urlMap.lookup name).getD []) with
  | error e => rw [hm] at h; exact Except.noConfusion h
  | ok mp =>
    obtain ⟨merged, perrs⟩ := mp
    rw [hm] at h
    have hx := (Prod.mk.injEq _ _ _ _).mp (Except.ok.inj h)
    rw [← hx.2]
    have hperrs := pagesFold_errors fetch _ [] [] merged perrs hm
    refine List.mem_append.mpr (Or.inl (List.mem_append.mpr (Or.inr ?_)))
    rw [hperrs]
    simp only [List.nil_append]
    exact List.mem_map.mpr
      ⟨u, List.mem_filter.mpr ⟨hu, by rw [hf]; rfl⟩, rfl⟩

/-- Counterexample to claim C2: a fatal error on one page is not
converted into a diagnostic and not isolated — with group a broken by
an out-of-vocabulary access level and group b perfectly healthy, the
whole catalog build returns an error and the healthy group contributes
nothing. -/
theorem c2_counterexample_fatal_aborts_build :
    create_action_map [("a", ["bad"]), ("b", ["p1"])] exMixedFetch []
      [("a", []), ("b", [])] = .error (.badAccessLevel "Maybe") := rfl

/-- Claim C2 (amended): only a missing actions table is isolated to its
page — it yields the per-page warning diagnostic and the other pages
still contribute; a fatal error while processing a fetched table (a
table-shape violation or an unknown access-level value) is never
converted into a diagnostic: generate_action_map fails as a whole
exactly when some configured page has a table whose processing raises,
and such a failure aborts the whole create_action_map build. -/
theorem c2_page_isolation_and_fatal_propagation :
    (∀ (urlMap : List (String × List String)) (fetch : String → Option Table)
        (name : String) (acts : List String),
      (∃ e, generate_action_map urlMap fetch name acts = .error e) ↔
      (∃ u ∈ (urlMap.lookup name).getD [], ∃ t e, fetch u = some t ∧
        process_actions_table t = .error e)) ∧
    (∀ (urlMap : List (String × List String)) (fetch : String → Option Table)
        (name : String) (acts : List String) (as : List (String × ActionMap))
        (es : List String) (u : String),
      generate_action_map urlMap fetch name acts = .ok (as, es) →
      u ∈ (urlMap.lookup name).getD [] → fetch u = none →
      missingTableMsg u ∈ es) ∧
    (∀ (urlMap : List (String × List String)) (fetch : String → Option Table)
        (missing : List String) (services : List (String × List String)),
      (∃ n ∈ sortStrings (dedupKeepFirst (services.map Prod.fst)), ∃ e,
        generate_action_map urlMap fetch n
          ((services.lookup n).getD []) = .error e) →
      ∃ e, create_action_map urlMap fetch missing services = .error e) := by
  refine ⟨generate_error_iff, fun _ _ _ _ _ _ _ h hu hf =>
    generate_ok_missing_diag h hu hf, ?_⟩
  intro urlMap fetch missing services hex
  obtain ⟨e, he⟩ := serviceFold_error urlMap fetch services _
    ([], missing.map (fun s => "Unmapped service is being published: " ++ s))
    hex
  refine ⟨e, ?_⟩
  unfold create_action_map
  rw [he]

/-- Witness for c2_page_isolation_and_fatal_propagation at a concrete
group with one table-less page. -/
theorem c2_page_isolation_and_fatal_propagation_witness :
    missingTableMsg "p" ∈ ["Page missing actions table: p"] :=
  c2_page_isolation_and_fatal_propagation.2.1 [("a", ["p"])] (fun _ => none)
    "a" [] [] ["Page missing actions table: p"] "p" rfl
    (List.mem_singleton.mpr rfl) rfl

/-!
First-documented-wins lookup characterization (claims C7 and C1).
-/

theorem insertRec_lookup (m : List (String × ActionMap)) (r : ActionMap)
    (a : String) :
    (insertRec m r).lookup a =
      (m.lookup a).or (if r.action == a then some r else none) := by
  unfold insertRec
  by_cases hs : (m.lookup r.action).isSome
  · rw [if_pos hs]
    by_cases ha : r.action = a
    · subst ha
      obtain ⟨v, hv⟩ := Option.isSome_iff_exists.mp hs
      rw [hv]
      simp
    · have hba : (r.action == a) = false := beq_eq_false_iff_ne.mpr ha
      rw [hba]
      simp
  · rw [if_neg hs, List.lookup_append]
    congr 1
    by_cases ha : r.action = a
    · subst ha
      simp [List.lookup]
    · have h1 : (a == r.action) = false :=
        beq_eq_false_iff_ne.mpr (fun he => ha he.symm)
      have h2 : (r.action == a) = false := beq_eq_false_iff_ne.mpr ha
      simp [List.lookup, h1, h2]

theorem firstWithAction_cons (a : String) (r : ActionMap)
    (l : List ActionMap) :
    firstWithAction a (r :: l) =
      if r.action == a then some r else firstWithAction a l := by
  unfold firstWithAction
  rw [List.find?_cons]
  cases h : (r.action == a) <;> simp [h]

theorem lookup_foldl_insertRec :
    ∀ (recs : List ActionMap) (m : List (String × ActionMap)) (a : String),
      (recs.foldl insertRec m).lookup a =
        (m.lookup a).or (firstWithAction a recs) := by
  intro recs
  induction recs with
  | nil =>
    intro m a
    simp [firstWithAction]
  | cons r rest ih =>
    intro m a
    rw [List.foldl_cons, ih, insertRec_lookup, firstWithAction_cons]
    cases hr : (r.action == a) <;> simp [Option.or_assoc]

theorem pagesFold_lookup (fetch : String → Option Table) :
    ∀ (us : List String) (m0 : List (String × ActionMap)) (e0 : List String)
      (m : List (String × ActionMap)) (e : List String),
      us.foldlM (pageStep fetch) (m0, e0) = .ok (m, e) → ∀ a,
      m.lookup a = (m0.lookup a).or (firstWithAction a (docStream fetch us)) := by
  intro us
  induction us with
  | nil =>
    intro m0 e0 m e h a
    rw [List.foldlM_nil] at h
    have h2 := (Prod.mk.injEq _ _ _ _).mp (Except.ok.inj h)
    rw [← h2.1]
    simp [docStream, firstWithAction]
  | cons u rest ih =>
    intro m0 e0 m e h a
    rw [List.foldlM_cons] at h
    cases hf : fetch u with
    | none =>
      rw [pageStep_none hf] at h
      rw [ih _ _ _ _ h a]
      have hpr : pageRecs fetch u = [] := by
        unfold pageRecs
        rw [hf]
      rw [show docStream fetch (u :: rest)
          = pageRecs fetch u ++ docStream fetch rest from List.flatMap_cons ..]
      rw [hpr, List.nil_append]
    | some t =>
      cases hp : process_actions_table t with
      | error e2 =>
        rw [pageStep_some_error hf hp] at h
        exact Except.noConfusion h
      | ok recs =>
        rw [pageStep_some_ok hf hp] at h
        rw [ih _ _ _ _ h a, lookup_foldl_insertRec]
        have hpr : pageRecs fetch u = recs := by
          unfold pageRecs
          rw [hf]
          dsimp only
          rw [hp]
        rw [show docStream fetch (u :: rest)
            = pageRecs fetch u ++ docStream fetch rest from List.flatMap_cons ..]
        rw [hpr]
        unfold firstWithAction
        rw [List.find?_append, Option.or_assoc]

theorem generate_ok_parts {urlMap : List (String × List String)}
    {fetch : String → Option Table} {name : String} {acts : List String}
    {as : List (String × ActionMap)} {es : List String}
    (h : generate_action_map urlMap fetch name acts = .ok (as, es)) :
    ∃ merged perrs,
      mergePages fetch ((urlMap.lookup name).getD []) = .ok (merged, perrs) ∧
      as = merged ++ (gapIds acts merged).map (fun a => (a, undocRecord a)) ∧
      es = (if ((urlMap.lookup name).getD []).isEmpty
              then [missingUrlMsg name] else [])
        ++ perrs ++ (gapIds acts merged).map (undocMsg name) := by
  unfold generate_action_map at h
  cases hm : mergePages fetch ((urlMap.lookup name).getD []) with
  | error e => rw [hm] at h; exact Except.noConfusion h
  | ok mp =>
    obtain ⟨merged, perrs⟩ := mp
    rw [hm] at h
    have hx := (Prod.mk.injEq _ _ _ _).mp (Except.ok.inj h)
    exact ⟨merged, perrs, rfl, hx.1.symm, hx.2.symm⟩

theorem merged_lookup_spec {fetch : String → Option Table}
    {us : List String} {merged : List (String × ActionMap)}
    {perrs : List String}
    (hm : mergePages fetch us = .ok (merged, perrs)) (a : String) :
    merged.lookup a = firstWithAction a (docStream fetch us) := by
  have h := pagesFold_lookup fetch us [] [] merged perrs hm a
  simpa using h

theorem gapIds_eq_spec {fetch : String → Option Table} {us : List String}
    {merged : List (String × ActionMap)} {perrs : List String}
    (hm : mergePages fetch us = .ok (merged, perrs)) (acts : List String) :
    gapIds acts merged = gapIdsSpec fetch us acts := by
  unfold gapIds gapIdsSpec
  apply List.filter_congr
  intro a _
  rw [merged_lookup_spec hm a]

theorem lookup_gap_map : ∀ (gaps : List String) (a : String), a ∈ gaps →
    (gaps.map (fun x => (x, undocRecord x))).lookup a
      = some (undocRecord a) := by
  intro gaps
  induction gaps with
  | nil =>
    intro a ha
    simp at ha
  | cons g rest ih =>
    intro a ha
    rw [List.map_cons]
    by_cases hg : a = g
    · subst hg
      simp [List.lookup]
    · have h1 : (a == g) = false := beq_eq_false_iff_ne.mpr hg
      simp only [List.lookup, h1]
      refine ih a ?_
      rcases List.mem_cons.mp ha with h2 | h2
      · exact absurd h2 hg
      · exact h2

/-- Claim C7: pages of a group merge in configured order with
first-documented-wins semantics — the final record for an identifier is
the first record documenting it across the configured page stream,
unchanged by later duplicates — and the emitted diagnostics are exactly
the missing-URL-map, missing-table and undocumented-gap messages, so no
diagnostic is emitted for a later duplicate. -/
theorem c7_first_documented_wins (urlMap : List (String × List String))
    (fetch : String → Option Table) (name : String) (acts : List String)
    (as : List (String × ActionMap)) (es : List String)
    (h : generate_action_map urlMap fetch name acts = .ok (as, es)) :
    (∀ a r, firstWithAction a
        (docStream fetch ((urlMap.lookup name).getD [])) = some r →
      as.lookup a = some r) ∧
    es = (if ((urlMap.lookup name).getD []).isEmpty
            then [missingUrlMsg name] else [])
      ++ (((urlMap.lookup name).getD []).filter
            (fun u => (fetch u).isNone)).map missingTableMsg
      ++ (gapIdsSpec fetch ((urlMap.lookup name).getD []) acts).map
            (undocMsg name) := by
  obtain ⟨merged, perrs, hm, hA, hE⟩ := generate_ok_parts h
  constructor
  · intro a r hfirst
    rw [hA, List.lookup_append, merged_lookup_spec hm a, hfirst]
    rfl
  · rw [hE, pagesFold_errors fetch _ [] [] merged perrs hm,
      gapIds_eq_spec hm acts]
    simp

/-- Witness for c7_first_documented_wins at the duplicate-documentation
scenario. -/
theorem c7_first_documented_wins_witness :
    ([("b:List", exDupRecord)] : List (String × ActionMap)).lookup "b:List"
        = some exDupRecord ∧
    ([] : List String) =
      (if ((([("b", ["p1", "p2"])] : List (String × List String)).lookup
              "b").getD []).isEmpty
         then [missingUrlMsg "b"] else [])
        ++ (((([("b", ["p1", "p2"])] : List (String × List String)).lookup
              "b").getD []).filter
              (fun u => (exDupFetch u).isNone)).map missingTableMsg
        ++ (gapIdsSpec exDupFetch
              ((([("b", ["p1", "p2"])] : List (String × List String)).lookup
                "b").getD []) ["b:List"]).map (undocMsg "b") := by
  have h := c7_first_documented_wins [("b", ["p1", "p2"])] exDupFetch "b"
    ["b:List"] [("b:List", exDupRecord)] [] rfl
  exact ⟨h.1 "b:List" exDupRecord rfl, h.2⟩

/-- Claim C1: gap completeness — after a successful
generate_action_map, every identifier of the authoritative list is a
key of the returned map; an identifier documented by no page is bound
to the synthesized record with access level Undocumented and
description "Not Documented by AWS", and exactly one warning diagnostic
naming the group and the identifier is emitted for it. -/
theorem c1_gap_completeness (urlMap : List (String × List String))
    (fetch : String → Option Table) (name : String) (acts : List String)
    (as : List (String × ActionMap)) (es : List String)
    (h : generate_action_map urlMap fetch name acts = .ok (as, es)) :
    ∀ a ∈ acts, (as.lookup a).isSome ∧
      (firstWithAction a
          (docStream fetch ((urlMap.lookup name).getD [])) = none →
        as.lookup a = some (undocRecord a) ∧
        es.count (undocMsg name a) = 1) := by
  obtain ⟨merged, perrs, hm, hA, hE⟩ := generate_ok_parts h
  intro a ha
  cases hfa : firstWithAction a
      (docStream fetch ((urlMap.lookup name).getD [])) with
  | some r =>
    constructor
    · rw [hA, List.lookup_append, merged_lookup_spec hm a, hfa]
      rfl
    · intro hnone
      exact absurd hnone (by simp)
  | none =>
    have hgap : a ∈ gapIds acts merged := by
      unfold gapIds
      refine List.mem_filter.mpr ⟨mem_dedupKeepFirst.mpr ha, ?_⟩
      rw [merged_lookup_spec hm a, hfa]
      rfl
    have hlook : as.lookup a = some (undocRecord a) := by
      rw [hA, List.lookup_append, merged_lookup_spec hm a, hfa]
      rw [Option.none_or]
      exact lookup_gap_map _ _ hgap
    refine ⟨by rw [hlook]; rfl, fun _ => ⟨hlook, ?_⟩⟩
    rw [hE, List.count_append, List.count_append]
    have hbase : List.count (undocMsg name a)
        (if ((urlMap.lookup name).getD []).isEmpty
          then [missingUrlMsg name] else []) = 0 := by
      by_cases hb : ((urlMap.lookup name).getD []).isEmpty
      · rw [if_pos hb]
        have hne : (missingUrlMsg name == undocMsg name a) = false :=
          beq_eq_false_iff_ne.mpr (Ne.symm undocMsg_ne_missingUrlMsg)
        simp [List.count_cons, hne]
      · rw [if_neg hb]
        rfl
    have hperrs : List.count (undocMsg name a) perrs = 0 := by
      rw [pagesFold_errors fetch _ [] [] merged perrs hm]
      rw [List.count_eq_zero]
      intro hmem
      simp only [List.nil_append] at hmem
      obtain ⟨u, _, hu⟩ := List.mem_map.mp hmem
      exact undocMsg_ne_missingTableMsg hu.symm
    have hgapcount : List.count (undocMsg name a)
        ((gapIds acts merged).map (undocMsg name)) = 1 := by
      rw [List.count_map_of_injective _ _ (undocMsg_injective name)]
      exact List.count_eq_one_of_mem
        (List.Nodup.filter _ nodup_dedupKeepFirst) hgap
    rw [hbase, hperrs, hgapcount]

/-- Witness for c1_gap_completeness at a concrete gap identifier. -/
theorem c1_gap_completeness_witness :
    (([("Get", undocRecord "Get")] : List (String × ActionMap)).lookup
        "Get").isSome ∧
    (([("Get", undocRecord "Get")] : List (String × ActionMap)).lookup "Get"
        = some (undocRecord "Get") ∧
      List.count (undocMsg "a" "Get")
        ["Service missing URL map: a", "Undocumented action found: a:Get"]
        = 1) := by
  have h := c1_gap_completeness [] (fun _ => none) "a" ["Get"]
    [("Get", undocRecord "Get")]
    ["Service missing URL map: a", "Undocumented action found: a:Get"] rfl
    "Get" (List.mem_singleton.mpr rfl)
  exact ⟨h.1, h.2 rfl⟩

/-!
Shape of the flattener output (claim C5).
-/

theorem stepColumns_len (ignore : Bool) :
    ∀ (cols : List (Nat × String)) (cells : List Cell)
      (out : List (Nat × String)),
      stepColumns ignore cols cells = .ok out → out.length = cols.length := by
  intro cols
  induction cols with
  | nil =>
    intro cells out h
    rw [← Except.ok.inj h]
  | cons c colsRest ih =>
    intro cells out h
    obtain ⟨sp, acc⟩ := c
    unfold stepColumns at h
    by_cases hsp : sp > 1
    · rw [if_pos hsp] at h
      cases hrec : stepColumns ignore colsRest cells with
      | error e => rw [hrec] at h; exact Except.noConfusion h
      | ok out2 =>
        rw [hrec] at h
        rw [← Except.ok.inj h]
        simp [ih _ _ hrec]
    · rw [if_neg hsp] at h
      by_cases hig : ignore
      · rw [if_pos hig] at h
        cases hrec : stepColumns ignore colsRest cells with
        | error e => rw [hrec] at h; exact Except.noConfusion h
        | ok out2 =>
          rw [hrec] at h
          rw [← Except.ok.inj h]
          simp [ih _ _ hrec]
      · rw [if_neg hig] at h
        cases cells with
        | nil => exact Except.noConfusion h
        | cons cel rest =>
          dsimp only at h
          cases hrec : stepColumns ignore colsRest rest with
          | error e => rw [hrec] at h; exact Except.noConfusion h
          | ok out2 =>
            rw [hrec] at h
            rw [← Except.ok.inj h]
            simp [ih _ _ hrec]

theorem consumeBlock_len : ∀ (n : Nat) (cols : List (Nat × String))
    (rows : List Row) (cols2 : List (Nat × String)) (rows2 : List Row),
    consumeBlock n cols rows = .ok (cols2, rows2) →
    cols2.length = cols.length := by
  intro n
  induction n with
  | zero =>
    intro cols rows cols2 rows2 h
    simp only [consumeBlock, Except.ok.injEq, Prod.mk.injEq] at h
    rw [← h.1]
  | succ n ih =>
    intro cols rows cols2 rows2 h
    match rows with
    | [] => simp [consumeBlock] at h
    | row :: rest =>
      match row with
      | [] => simp [consumeBlock] at h
      | c0 :: cs =>
        simp only [consumeBlock] at h
        cases hstep : stepColumns (isIgnoreRow c0) cols (c0 :: cs) with
        | error e => rw [hstep] at h; exact Except.noConfusion h
        | ok cols3 =>
          rw [hstep] at h
          rw [ih cols3 rest cols2 rows2 h]
          exact stepColumns_len _ _ _ _ hstep

theorem headD_map_rowspan (row : Row) (h : row ≠ []) :
    (row.map (fun c => c.rowspan)).headD 1 = (row.headD defaultCell).rowspan := by
  cases row with
  | nil => exact absurd rfl h
  | cons c rest => rfl

theorem flattenAux_shape : ∀ (fuel : Nat) (t : Table)
    (out : List (List String)), flattenAux fuel t = .ok out →
    out.length = blockCountAux fuel t ∧ ∀ r ∈ out, r.length = 6 := by
  intro fuel
  induction fuel with
  | zero =>
    intro t out h
    cases t with
    | nil =>
      rw [← Except.ok.inj h]
      exact ⟨rfl, by simp⟩
    | cons row rest => exact Except.noConfusion h
  | succ fuel ih =>
    intro t out h
    cases t with
    | nil =>
      rw [← Except.ok.inj h]
      exact ⟨rfl, by simp⟩
    | cons row rest =>
      unfold flattenAux at h
      by_cases h6 : row.length = 6
      · rw [if_pos h6] at h
        cases hcb : consumeBlock (((row.map (fun c => c.rowspan)).headD 1) - 1)
            ((row.map (fun c => c.rowspan)).zip
              (row.map (fun c => pyStrip c.text))) rest with
        | error e => rw [hcb] at h; exact Except.noConfusion h
        | ok pr =>
          obtain ⟨cols, rest2⟩ := pr
          rw [hcb] at h
          dsimp only at h
          by_cases hall : cols.all (fun p => p.1 == 1)
          · rw [if_pos hall] at h
            cases hrec : flattenAux fuel rest2 with
            | error e => rw [hrec] at h; exact Except.noConfusion h
            | ok t2 =>
              rw [hrec] at h
              obtain ⟨ih1, ih2⟩ := ih rest2 t2 hrec
              have hne : row ≠ [] := by
                intro hnil
                rw [hnil] at h6
                exact absurd h6 (by simp)
              have hr2 := consumeBlock_ok_rows _ _ _ _ _ hcb
              rw [headD_map_rowspan row hne] at hr2
              have hlen6 : cols.length = 6 := by
                rw [consumeBlock_len _ _ _ _ _ hcb]
                rw [List.length_zip]
                simp [h6]
              constructor
              · rw [← Except.ok.inj h]
                simp only [List.length_cons]
                rw [ih1]
                have hbc : blockCountAux (fuel + 1) (row :: rest)
                    = 1 + blockCountAux fuel
                        (rest.drop ((row.headD defaultCell).rowspan - 1)) := rfl
                rw [hbc, ← hr2]
                omega
              · rw [← Except.ok.inj h]
                intro r hr
                rcases List.mem_cons.mp hr with h1 | h2
                · rw [h1, List.length_map]
                  exact hlen6
                · exact ih2 r h2
          · rw [if_neg hall] at h
            exact Except.noConfusion h
      · rw [if_neg h6] at h
        exact Except.noConfusion h

/-- Claim C5: for every table on which flatten_table succeeds, the
output has exactly one flat row per logical row-span block, in document
order, and every flat row has exactly 6 fields. -/
theorem c5_row_count_invariant (t : Table) (out : List (List String))
    (h : flatten_table t = .ok out) :
    out.length = blockCount t ∧ ∀ r ∈ out, r.length = 6 :=
  flattenAux_shape t.length t out h

/-- Witness for c5_row_count_invariant at a span-free two-row table. -/
theorem c5_row_count_invariant_witness :
    ([["a1", "a2", "Read", "r", "k", "d"],
      ["b1", "b2", "Write", "", "", ""]] : List (List String)).length
        = blockCount exPlainTable ∧
    (["a1", "a2", "Read", "r", "k", "d"] : List String).length = 6 := by
  have h := c5_row_count_invariant exPlainTable
    [["a1", "a2", "Read", "r", "k", "d"], ["b1", "b2", "Write", "", "", ""]]
    rfl
  exact ⟨h.1, h.2 _ (List.mem_cons_self _ _)⟩

/-!
Shape-error behavior of the flattener (claim C6).
-/

theorem stepColumns_short : ∀ (cols : List (Nat × String)) (cells : List Cell),
    cells.length < neededCells cols →
    stepColumns false cols cells = .error .cellsExhausted := by
  intro cols
  induction cols with
  | nil =>
    intro cells h
    simp [neededCells] at h
  | cons c colsRest ih =>
    intro cells h
    obtain ⟨sp, acc⟩ := c
    have hN : neededCells ((sp, acc) :: colsRest)
        = (if sp > 1 then 0 else 1) + neededCells colsRest := rfl
    rw [hN] at h
    unfold stepColumns
    by_cases hsp : sp > 1
    · rw [if_pos hsp] at h ⊢
      rw [ih cells (by omega)]
      rfl
    · rw [if_neg hsp] at h ⊢
      simp only [Bool.false_eq_true, if_false]
      cases cells with
      | nil => rfl
      | cons cel rest =>
        simp only [List.length_cons] at h
        dsimp only
        rw [ih rest (by omega)]
        rfl

theorem stepColumns_enough : ∀ (cols : List (Nat × String))
    (cells : List Cell), neededCells cols ≤ cells.length →
    ∃ out, stepColumns false cols cells = .ok out := by
  intro cols
  induction cols with
  | nil =>
    intro cells _
    exact ⟨[], rfl⟩
  | cons c colsRest ih =>
    intro cells h
    obtain ⟨sp, acc⟩ := c
    have hN : neededCells ((sp, acc) :: colsRest)
        = (if sp > 1 then 0 else 1) + neededCells colsRest := rfl
    rw [hN] at h
    unfold stepColumns
    by_cases hsp : sp > 1
    · rw [if_pos hsp] at h ⊢
      obtain ⟨out, hout⟩ := ih cells (by omega)
      exact ⟨(sp - 1, acc) :: out, by rw [hout]; rfl⟩
    · rw [if_neg hsp] at h ⊢
      simp only [Bool.false_eq_true, if_false]
      cases cells with
      | nil =>
        exfalso
        simp only [List.length_nil] at h
        omega
      | cons cel rest =>
        simp only [List.length_cons] at h
        obtain ⟨out, hout⟩ := ih rest (by omega)
        refine ⟨(sp, acc ++ " " ++ pyStrip cel.text) :: out, ?_⟩
        dsimp only
        rw [hout]
        rfl

theorem flatten_firstRowNotSix (row : Row) (rest : Table)
    (h6 : row.length ≠ 6) :
    flatten_table (row :: rest) = .error .firstRowNotSix := by
  unfold flatten_table
  simp only [List.length_cons]
  unfold flattenAux
  rw [if_neg h6]

theorem flatten_spanNotClosed (row : Row) (rest : Table)
    (cols : List (Nat × String)) (rest2 : Table) (h6 : row.length = 6)
    (hcb : consumeBlock (((row.map (fun c => c.rowspan)).headD 1) - 1)
      ((row.map (fun c => c.rowspan)).zip (row.map (fun c => pyStrip c.text)))
      rest = .ok (cols, rest2))
    (hall : cols.all (fun p => p.1 == 1) = false) :
    flatten_table (row :: rest) = .error .spanNotClosed := by
  unfold flatten_table
  simp only [List.length_cons]
  unfold flattenAux
  rw [if_pos h6, hcb]
  dsimp only
  rw [hall]
  rfl

/-- Counterexample to claim C6: a continuation row whose data-cell
count differs from what the block requires does not always fail — this
block requires 5 cells for its continuation row, the row carries 6,
and flatten_table succeeds, silently ignoring the extra cell rather
than raising a shape error. -/
theorem c6_counterexample_extra_cells_ignored :
    exSpanOver.length = 6 ∧
    neededCells ((exSpanFirst.map (fun c => c.rowspan)).zip
        (exSpanFirst.map (fun c => pyStrip c.text))) = 5 ∧
    flatten_table [exSpanFirst, exSpanOver] =
      .ok [["x", "d1 d2", "Read R", "r1 r", "k1 k", "e1 e"]] :=
  ⟨rfl, rfl, rfl⟩

/-- Claim C6 (amended): flatten_table fails fatally when a block's
first row does not have exactly 6 cells, and when a span counter above
1 remains at block end; the column loop fails fatally (the cell
iterator is exhausted) whenever a non-ignored physical row carries
fewer cells than the not-yet-spanned columns require; but a row with at
least the required cells never fails — surplus cells are silently
ignored. -/
theorem c6_shape_error_behavior :
    (∀ (row : Row) (rest : Table), row.length ≠ 6 →
      flatten_table (row :: rest) = .error .firstRowNotSix) ∧
    (∀ (cols : List (Nat × String)) (cells : List Cell),
      cells.length < neededCells cols →
      stepColumns false cols cells = .error .cellsExhausted) ∧
    (∀ (cols : List (Nat × String)) (cells : List Cell),
      neededCells cols ≤ cells.length →
      ∃ out, stepColumns false cols cells = .ok out) ∧
    (∀ (row : Row) (rest : Table) (cols : List (Nat × String))
        (rest2 : Table), row.length = 6 →
      consumeBlock (((row.map (fun c => c.rowspan)).headD 1) - 1)
        ((row.map (fun c => c.rowspan)).zip
          (row.map (fun c => pyStrip c.text))) rest = .ok (cols, rest2) →
      cols.all (fun p => p.1 == 1) = false →
      flatten_table (row :: rest) = .error .spanNotClosed) :=
  ⟨flatten_firstRowNotSix, stepColumns_short, stepColumns_enough,
   flatten_spanNotClosed⟩

/-- Witness for c6_shape_error_behavior at concrete malformed tables. -/
theorem c6_shape_error_behavior_witness :
    flatten_table [exShortRow] = .error .firstRowNotSix ∧
    stepColumns false [(1, "a")] [] = .error .cellsExhausted ∧
    flatten_table [exUnclosedRow] = .error .spanNotClosed :=
  ⟨c6_shape_error_behavior.1 exShortRow [] (by decide),
   c6_shape_error_behavior.2.1 [(1, "a")] [] (by decide),
   c6_shape_error_behavior.2.2.2 exUnclosedRow []
     [(1, "x"), (2, "d"), (1, "Read"), (1, "r"), (1, "k"), (1, "e")] []
     rfl rfl rfl⟩

/-!
Per-column semantics of a span block (claim C4).
-/

theorem joinCol_append (b : String) (cs : List String) (s : String) :
    joinCol b (cs ++ [s]) = joinCol b cs ++ " " ++ s := by
  simp [joinCol]

theorem consumingCount_cons (cell : Cell) (rest : Row) :
    consumingCount (cell :: rest)
      = (if 1 < cell.rowspan then 0 else 1) + consumingCount rest := by
  unfold consumingCount
  rw [List.filter_cons]
  by_cases h : 1 < cell.rowspan
  · simp [h]
  · simp [h, Nat.add_comm]

theorem mixedState_nil (done : Nat) (css : List (List String)) :
    mixedState done [] css = [] := rfl

theorem mixedState_cons_inh (done : Nat) (cell : Cell) (rest : Row)
    (css : List (List String)) (hc : 1 < cell.rowspan) :
    mixedState done (cell :: rest) css
      = (cell.rowspan - done, pyStrip cell.text) :: mixedState done rest css := by
  simp only [mixedState]
  rw [if_pos hc]

theorem mixedState_cons_nilcss (done : Nat) (cell : Cell) (rest : Row)
    (hc : ¬ 1 < cell.rowspan) :
    mixedState done (cell :: rest) []
      = (1, pyStrip cell.text) :: mixedState done rest [] := by
  simp only [mixedState]
  rw [if_neg hc]

theorem mixedState_cons_con (done : Nat) (cell : Cell) (rest : Row)
    (cs : List String) (cssRest : List (List String))
    (hc : ¬ 1 < cell.rowspan) :
    mixedState done (cell :: rest) (cs :: cssRest)
      = (1, joinCol (pyStrip cell.text) cs) :: mixedState done rest cssRest := by
  simp only [mixedState]
  rw [if_neg hc]

theorem stepColumns_mixedState_cons :
    ∀ (fr : Row) (done : Nat) (css : List (List String)) (r : List Cell),
      (∀ cell ∈ fr, 1 < cell.rowspan → done + 2 ≤ cell.rowspan) →
      consumingCount fr ≤ r.length →
      css.length = consumingCount fr →
      stepColumns false (mixedState done fr css) r
        = .ok (mixedState (done + 1) fr (zipAppend css r)) := by
  intro fr
  induction fr with
  | nil =>
    intro done css r _ _ _
    rfl
  | cons cell rest ih =>
    intro done css r hsp hlen hcss
    rw [consumingCount_cons] at hlen hcss
    by_cases hc : 1 < cell.rowspan
    · rw [if_pos hc] at hlen hcss
      rw [mixedState_cons_inh done cell rest css hc,
        mixedState_cons_inh (done + 1) cell rest (zipAppend css r) hc]
      unfold stepColumns
      have hgt : cell.rowspan - done > 1 := by
        have := hsp cell (List.mem_cons_self _ _) hc
        omega
      rw [if_pos hgt]
      rw [ih done css r (fun c hm h1 => hsp c (List.mem_cons_of_mem _ hm) h1)
        (by omega) (by omega)]
      have harith : cell.rowspan - done - 1 = cell.rowspan - (done + 1) := by
        omega
      rw [harith]
      rfl
    · rw [if_neg hc] at hlen hcss
      cases css with
      | nil =>
        exfalso
        simp only [List.length_nil] at hcss
        omega
      | cons cs cssRest =>
        cases r with
        | nil =>
          exfalso
          simp only [List.length_nil] at hlen
          omega
        | cons cel rcells =>
          simp only [List.length_cons] at hlen hcss
          rw [mixedState_cons_con done cell rest cs cssRest hc]
          rw [show zipAppend (cs :: cssRest) (cel :: rcells)
              = (cs ++ [pyStrip cel.text]) :: zipAppend cssRest rcells from rfl]
          rw [mixedState_cons_con (done + 1) cell rest
            (cs ++ [pyStrip cel.text]) (zipAppend cssRest rcells) hc]
          rw [joinCol_append]
          unfold stepColumns
          rw [if_neg (by omega : ¬(1 : Nat) > 1)]
          simp only [Bool.false_eq_true, if_false]
          rw [ih done cssRest rcells
            (fun c hm h1 => hsp c (List.mem_cons_of_mem _ hm) h1)
            (by omega) (by omega)]
          rfl

theorem stepColumns_mixedState_ignore :
    ∀ (fr : Row) (done : Nat) (css : List (List String)) (r : List Cell),
      (∀ cell ∈ fr, 1 < cell.rowspan → done + 2 ≤ cell.rowspan) →
      stepColumns true (mixedState done fr css) r
        = .ok (mixedState (done + 1) fr css) := by
  intro fr
  induction fr with
  | nil =>
    intro done css r _
    rfl
  | cons cell rest ih =>
    intro done css r hsp
    by_cases hc : 1 < cell.rowspan
    · rw [mixedState_cons_inh done cell rest css hc,
        mixedState_cons_inh (done + 1) cell rest css hc]
      unfold stepColumns
      have hgt : cell.rowspan - done > 1 := by
        have := hsp cell (List.mem_cons_self _ _) hc
        omega
      rw [if_pos hgt]
      rw [ih done css r (fun c hm h1 => hsp c (List.mem_cons_of_mem _ hm) h1)]
      have harith : cell.rowspan - done - 1 = cell.rowspan - (done + 1) := by
        omega
      rw [harith]
      rfl
    · cases css with
      | nil =>
        rw [mixedState_cons_nilcss done cell rest hc,
          mixedState_cons_nilcss (done + 1) cell rest hc]
        unfold stepColumns
        rw [if_neg (by omega : ¬(1 : Nat) > 1)]
        simp only [if_true]
        rw [ih done [] r (fun c hm h1 => hsp c (List.mem_cons_of_mem _ hm) h1)]
        rfl
      | cons cs cssRest =>
        rw [mixedState_cons_con done cell rest cs cssRest hc,
          mixedState_cons_con (done + 1) cell rest cs cssRest hc]
        unfold stepColumns
        rw [if_neg (by omega : ¬(1 : Nat) > 1)]
        simp only [if_true]
        rw [ih done cssRest r
          (fun c hm h1 => hsp c (List.mem_cons_of_mem _ hm) h1)]
        rfl

theorem zipAppend_length (css : List (List String)) (r : List Cell)
    (h : css.length ≤ r.length) : (zipAppend css r).length = css.length := by
  unfold zipAppend
  rw [List.length_zipWith]
  omega

theorem rowIgnored_cons (c0 : Cell) (rcells : List Cell) :
    rowIgnored (c0 :: rcells) = isIgnoreRow c0 := rfl

theorem finalCss_cons_ignored (css : List (List String)) (r : Row)
    (crows : List Row) (hig : rowIgnored r = true) :
    finalCss css (r :: crows) = finalCss css crows := by
  unfold finalCss
  rw [List.foldl_cons]
  rw [hig]
  simp

theorem finalCss_cons_kept (css : List (List String)) (r : Row)
    (crows : List Row) (hig : rowIgnored r = false) :
    finalCss css (r :: crows) = finalCss (zipAppend css r) crows := by
  unfold finalCss
  rw [List.foldl_cons]
  rw [hig]
  simp

theorem consumeBlock_mixedState :
    ∀ (crows restT : List Row) (done : Nat) (fr : Row)
      (css : List (List String)),
      (∀ cell ∈ fr, 1 < cell.rowspan → done + crows.length + 1 ≤ cell.rowspan) →
      css.length = consumingCount fr →
      (∀ r ∈ crows, r ≠ [] ∧
        (rowIgnored r = false → consumingCount fr ≤ r.length)) →
      consumeBlock crows.length (mixedState done fr css) (crows ++ restT)
        = .ok (mixedState (done + crows.length) fr (finalCss css crows),
               restT) := by
  intro crows
  induction crows with
  | nil =>
    intro restT done fr css _ _ _
    rfl
  | cons r crowsRest ih =>
    intro restT done fr css hsp hcss hrows
    obtain ⟨hne, hlen⟩ := hrows r (List.mem_cons_self _ _)
    cases r with
    | nil => exact absurd rfl hne
    | cons c0 rcells =>
      show consumeBlock (crowsRest.length + 1) _ _ = _
      rw [show ((c0 :: rcells) :: crowsRest) ++ restT
          = (c0 :: rcells) :: (crowsRest ++ restT) from rfl]
      unfold consumeBlock
      dsimp only
      cases hig : isIgnoreRow c0 with
      | true =>
        rw [stepColumns_mixedState_ignore fr done css (c0 :: rcells)
          (fun cl hm h1 => by have := hsp cl hm h1; simp at this; omega)]
        dsimp only
        rw [ih restT (done + 1) fr css
          (fun cl hm h1 => by have := hsp cl hm h1; simp at this; omega)
          hcss (fun rr hm => hrows rr (List.mem_cons_of_mem _ hm))]
        rw [finalCss_cons_ignored css (c0 :: rcells) crowsRest
          (by rw [rowIgnored_cons]; exact hig)]
        rw [show done + 1 + crowsRest.length
            = done + (crowsRest.length + 1) from by omega]
        simp [List.length_cons]
      | false =>
        have hlen2 : consumingCount fr ≤ (c0 :: rcells).length :=
          hlen (by rw [rowIgnored_cons]; exact hig)
        rw [stepColumns_mixedState_cons fr done css (c0 :: rcells)
          (fun cl hm h1 => by have := hsp cl hm h1; simp at this; omega)
          hlen2 hcss]
        dsimp only
        rw [ih restT (done + 1) fr (zipAppend css (c0 :: rcells))
          (fun cl hm h1 => by have := hsp cl hm h1; simp at this; omega)
          (by rw [zipAppend_length css _ (by omega)]; exact hcss)
          (fun rr hm => hrows rr (List.mem_cons_of_mem _ hm))]
        rw [finalCss_cons_kept css (c0 :: rcells) crowsRest
          (by rw [rowIgnored_cons]; exact hig)]
        rw [show done + 1 + crowsRest.length
            = done + (crowsRest.length + 1) from by omega]
        simp [List.length_cons]

theorem mixedState_closed :
    ∀ (fr : Row) (css : List (List String)) (hgt : Nat), 1 ≤ hgt →
      (∀ cell ∈ fr, cell.rowspan = 1 ∨ cell.rowspan = hgt) →
      (mixedState (hgt - 1) fr css).all (fun p => p.1 == 1) = true := by
  intro fr
  induction fr with
  | nil =>
    intro css hgt _ _
    rfl
  | cons cell rest ih =>
    intro css hgt h1 hsp
    by_cases hc : 1 < cell.rowspan
    · have hr : cell.rowspan = hgt := by
        rcases hsp cell (List.mem_cons_self _ _) with h | h
        · omega
        · exact h
      rw [mixedState_cons_inh (hgt - 1) cell rest css hc, List.all_cons]
      have hone : cell.rowspan - (hgt - 1) = 1 := by omega
      rw [hone]
      simp only [beq_self_eq_true, Bool.true_and]
      exact ih css hgt h1 (fun c hm => hsp c (List.mem_cons_of_mem _ hm))
    · cases css with
      | nil =>
        rw [mixedState_cons_nilcss (hgt - 1) cell rest hc, List.all_cons]
        simp only [beq_self_eq_true, Bool.true_and]
        exact ih [] hgt h1 (fun c hm => hsp c (List.mem_cons_of_mem _ hm))
      | cons cs cssRest =>
        rw [mixedState_cons_con (hgt - 1) cell rest cs cssRest hc,
          List.all_cons]
        simp only [beq_self_eq_true, Bool.true_and]
        exact ih cssRest hgt h1 (fun c hm => hsp c (List.mem_cons_of_mem _ hm))

theorem mixedState_zero :
    ∀ (fr : Row), (∀ cell ∈ fr, ¬ 1 < cell.rowspan → cell.rowspan = 1) →
      mixedState 0 fr (List.replicate (consumingCount fr) [])
        = (fr.map (fun c => c.rowspan)).zip
            (fr.map (fun c => pyStrip c.text)) := by
  intro fr
  induction fr with
  | nil =>
    intro _
    rfl
  | cons cell rest ih =>
    intro hsp
    rw [show ((cell :: rest).map (fun c => c.rowspan)).zip
          ((cell :: rest).map (fun c => pyStrip c.text))
        = (cell.rowspan, pyStrip cell.text)
          :: ((rest.map (fun c => c.rowspan)).zip
                (rest.map (fun c => pyStrip c.text))) from rfl]
    rw [← ih (fun c hm => hsp c (List.mem_cons_of_mem _ hm))]
    by_cases hc : 1 < cell.rowspan
    · rw [consumingCount_cons, if_pos hc, Nat.zero_add]
      rw [mixedState_cons_inh 0 cell rest _ hc, Nat.sub_zero]
    · rw [consumingCount_cons, if_neg hc, Nat.add_comm, List.replicate_succ]
      rw [mixedState_cons_con 0 cell rest [] _ hc]
      have h1 : cell.rowspan = 1 := hsp cell (List.mem_cons_self _ _) hc
      rw [h1]
      rfl

theorem finalCss_length :
    ∀ (crows : List Row) (css : List (List String)),
      (∀ r ∈ crows, rowIgnored r = false → css.length ≤ r.length) →
      (finalCss css crows).length = css.length := by
  intro crows
  induction crows with
  | nil =>
    intro css _
    rfl
  | cons r rest ih =>
    intro css h
    cases hig : rowIgnored r with
    | true =>
      rw [finalCss_cons_ignored css r rest hig]
      exact ih css (fun rr hm hni => h rr (List.mem_cons_of_mem _ hm) hni)
    | false =>
      rw [finalCss_cons_kept css r rest hig]
      have hzl := zipAppend_length css r (h r (List.mem_cons_self _ _) hig)
      rw [ih (zipAppend css r)
        (fun rr hm hni => by
          rw [hzl]
          exact h rr (List.mem_cons_of_mem _ hm) hni)]
      exact hzl

theorem getD_replicate_nil : ∀ (k j : Nat),
    (List.replicate k ([] : List String)).getD j [] = [] := by
  intro k
  induction k with
  | zero =>
    intro j
    cases j <;> rfl
  | succ k ih =>
    intro j
    rw [List.replicate_succ]
    cases j with
    | zero => rfl
    | succ j =>
      rw [List.getD_cons_succ]
      exact ih j

theorem getD_zipAppend :
    ∀ (css : List (List String)) (r : List Cell) (j : Nat),
      j < css.length → css.length ≤ r.length →
      (zipAppend css r).getD j []
        = css.getD j [] ++ [pyStrip (r.getD j defaultCell).text] := by
  intro css
  induction css with
  | nil =>
    intro r j h _
    simp at h
  | cons cs cssRest ih =>
    intro r j hj hlen
    cases r with
    | nil => simp at hlen
    | cons cel rcells =>
      cases j with
      | zero => rfl
      | succ j =>
        simp only [List.length_cons] at hj hlen
        rw [show zipAppend (cs :: cssRest) (cel :: rcells)
            = (cs ++ [pyStrip cel.text]) :: zipAppend cssRest rcells from rfl]
        rw [List.getD_cons_succ, List.getD_cons_succ, List.getD_cons_succ]
        exact ih rcells j (by omega) (by omega)

theorem contribRows_cons_ignored (r : Row) (rest : List Row)
    (hig : rowIgnored r = true) :
    contribRows (r :: rest) = contribRows rest := by
  unfold contribRows
  rw [List.filter_cons, hig]
  simp

theorem contribRows_cons_kept (r : Row) (rest : List Row)
    (hig : rowIgnored r = false) :
    contribRows (r :: rest) = r :: contribRows rest := by
  unfold contribRows
  rw [List.filter_cons, hig]
  simp

theorem finalCss_getD :
    ∀ (crows : List Row) (css : List (List String)) (j : Nat),
      j < css.length →
      (∀ r ∈ crows, rowIgnored r = false → css.length ≤ r.length) →
      (finalCss css crows).getD j []
        = css.getD j [] ++ (contribRows crows).map
            (fun r => pyStrip (r.getD j defaultCell).text) := by
  intro crows
  induction crows with
  | nil =>
    intro css j _ _
    simp [finalCss, contribRows]
  | cons r rest ih =>
    intro css j hj hlen
    cases hig : rowIgnored r with
    | true =>
      rw [finalCss_cons_ignored css r rest hig,
        contribRows_cons_ignored r rest hig]
      exact ih css j hj (fun rr hm => hlen rr (List.mem_cons_of_mem _ hm))
    | false =>
      have hzl := zipAppend_length css r (hlen r (List.mem_cons_self _ _) hig)
      rw [finalCss_cons_kept css r rest hig,
        contribRows_cons_kept r rest hig, List.map_cons]
      rw [ih (zipAppend css r) j (by omega)
        (fun rr hm hni => by
          rw [hzl]
          exact hlen rr (List.mem_cons_of_mem _ hm) hni)]
      rw [getD_zipAppend css r j hj (hlen r (List.mem_cons_self _ _) hig)]
      simp [List.append_assoc]

theorem specCols_cons_inh (crows : List Row) (cell : Cell) (rest : Row)
    (j : Nat) (hc : 1 < cell.rowspan) :
    specCols crows (cell :: rest) j
      = pyStrip cell.text :: specCols crows rest j := by
  simp only [specCols]
  rw [if_pos hc]

theorem specCols_cons_con (crows : List Row) (cell : Cell) (rest : Row)
    (j : Nat) (hc : ¬ 1 < cell.rowspan) :
    specCols crows (cell :: rest) j
      = joinCol (pyStrip cell.text)
          ((contribRows crows).map (fun r => pyStrip (r.getD j defaultCell).text))
        :: specCols crows rest (j + 1) := by
  simp only [specCols]
  rw [if_neg hc]

theorem snd_mixedState_spec (crows : List Row) (K : Nat)
    (hrows : ∀ r ∈ crows, rowIgnored r = false → K ≤ r.length) :
    ∀ (frRest : Row) (j done : Nat),
      j + consumingCount frRest ≤ K →
      (mixedState done frRest
          ((finalCss (List.replicate K []) crows).drop j)).map Prod.snd
        = specCols crows frRest j := by
  have hflen : (finalCss (List.replicate K ([] : List String)) crows).length
      = K := by
    rw [finalCss_length crows _
      (fun r hm hni => by
        rw [List.length_replicate]
        exact hrows r hm hni)]
    exact List.length_replicate K []
  intro frRest
  induction frRest with
  | nil =>
    intro j done _
    rfl
  | cons cell rest ih =>
    intro j done hK
    rw [consumingCount_cons] at hK
    by_cases hc : 1 < cell.rowspan
    · rw [if_pos hc] at hK
      rw [mixedState_cons_inh done cell rest _ hc, List.map_cons,
        specCols_cons_inh crows cell rest j hc]
      congr 1
      exact ih j done (by omega)
    · rw [if_neg hc] at hK
      have hjK : j < K := by omega
      have hdrop : (finalCss (List.replicate K ([] : List String)) crows).drop j
          = (finalCss (List.replicate K []) crows).getD j []
              :: (finalCss (List.replicate K []) crows).drop (j + 1) := by
        rw [List.drop_eq_getElem_cons (by rw [hflen]; exact hjK)]
        rw [List.getD_eq_getElem _ _ (by rw [hflen]; exact hjK)]
      rw [hdrop]
      rw [mixedState_cons_con done cell rest _ _ hc, List.map_cons,
        specCols_cons_con crows cell rest j hc]
      congr 1
      · rw [finalCss_getD crows _ j
          (by rw [List.length_replicate]; exact hjK)
          (fun r hm hni => by
            rw [List.length_replicate]
            exact hrows r hm hni)]
        rw [getD_replicate_nil, List.nil_append]
      · exact ih (j + 1) done (by omega)

theorem flattenAux_congr : ∀ (f1 f2 : Nat) (t : Table),
    t.length ≤ f1 → t.length ≤ f2 → flattenAux f1 t = flattenAux f2 t := by
  intro f1
  induction f1 with
  | zero =>
    intro f2 t h1 h2
    cases t with
    | nil => cases f2 <;> rfl
    | cons row rest => simp at h1
  | succ f1 ih =>
    intro f2 t h1 h2
    cases t with
    | nil => cases f2 <;> rfl
    | cons row rest =>
      cases f2 with
      | zero => simp at h2
      | succ f2 =>
        simp only [List.length_cons] at h1 h2
        unfold flattenAux
        by_cases h6 : row.length = 6
        · rw [if_pos h6, if_pos h6]
          cases hcb : consumeBlock
              (((row.map (fun c => c.rowspan)).headD 1) - 1)
              ((row.map (fun c => c.rowspan)).zip
                (row.map (fun c => pyStrip c.text))) rest with
          | error e => rfl
          | ok pr =>
            obtain ⟨cols, rest2⟩ := pr
            dsimp only
            by_cases hall : cols.all (fun p => p.1 == 1)
            · rw [if_pos hall, if_pos hall]
              have hr2 := consumeBlock_ok_rows_le hcb
              rw [ih f2 rest2 (by omega) (by omega)]
            · rw [if_neg hall, if_neg hall]
        · rw [if_neg h6, if_neg h6]

/-- Claim C4: per-column semantics of a span block whose height is the
rowspan declared on the first cell of its first row and whose column
spans each either cover the whole block or a single row: a column whose
declared rowspan covers the whole block keeps the first row's trimmed
text, and every other column is the space-joined concatenation of the
first row's trimmed cell text followed by the corresponding trimmed
cell of each later non-ignored physical row of the block; the block
contributes exactly one flat row, in front of the remaining table's
output. -/
theorem c4_span_block_semantics (fr : Row) (crows restT : List Row)
    (restOut : List (List String)) (hgt : Nat)
    (hfr : fr.length = 6)
    (hhgt : hgt = (fr.headD defaultCell).rowspan)
    (h1 : 1 ≤ hgt)
    (hspans : ∀ cell ∈ fr, cell.rowspan = 1 ∨ cell.rowspan = hgt)
    (hcr : crows.length = hgt - 1)
    (hrows : ∀ r ∈ crows, r ≠ [] ∧
      (rowIgnored r = false → consumingCount fr ≤ r.length))
    (hrest : flatten_table restT = .ok restOut) :
    flatten_table (fr :: (crows ++ restT))
      = .ok (specBlockRow fr crows :: restOut) := by
  unfold flatten_table
  rw [show (fr :: (crows ++ restT)).length
      = (crows.length + restT.length) + 1 from by
    simp [List.length_append]]
  unfold flattenAux
  rw [if_pos hfr]
  have hne : fr ≠ [] := by
    intro h0
    rw [h0] at hfr
    simp at hfr
  rw [headD_map_rowspan fr hne, ← hhgt]
  have hone : ∀ cell ∈ fr, ¬ 1 < cell.rowspan → cell.rowspan = 1 := by
    intro cell hm hcl
    rcases hspans cell hm with h | h
    · exact h
    · omega
  rw [← mixedState_zero fr hone]
  rw [← hcr]
  rw [consumeBlock_mixedState crows restT 0 fr
    (List.replicate (consumingCount fr) [])
    (fun cell hm hcl => by
      rcases hspans cell hm with h | h
      · omega
      · omega)
    (List.length_replicate _ _) hrows]
  dsimp only
  rw [Nat.zero_add, hcr]
  rw [if_pos (mixedState_closed fr _ hgt h1 hspans)]
  rw [flattenAux_congr (hgt - 1 + restT.length) restT.length restT
    (by omega) (Nat.le_refl _)]
  rw [show flattenAux restT.length restT = Except.ok restOut from hrest]
  dsimp only
  have hs := snd_mixedState_spec crows (consumingCount fr)
    (fun r hm hni => (hrows r hm).2 hni) fr 0 (hgt - 1) (by omega)
  rw [List.drop_zero] at hs
  rw [hs]
  rfl

/-- Witness for c4_span_block_semantics at Scenario B: column 1 spans
the whole 3-row block, columns 2-6 span single rows. -/
theorem c4_span_block_semantics_witness :
    flatten_table [scenBFirst, scenBRow2, scenBRow3]
      = .ok [["x", "d1 d2 d3", "Read Read2 Read3", "r1 r2 r3", "k1 k2 k3",
              "e1 e2 e3"]] :=
  c4_span_block_semantics scenBFirst [scenBRow2, scenBRow3] [] [] 3 rfl rfl
    (by omega) (by decide) rfl (by decide) rfl

end IamActions
